import Mathlib

/-!
Verification development for the PropertyRAG core services.

The Python sources are embedded shallowly:
Python strings become lists of characters (`Str`), the tiktoken tokenizer
becomes an explicit `Tokenizer` parameter (the code pins one consistent
tokenizer, `cl100k_base`; theorems either hold for every tokenizer or
state the tokenizer facts they need as hypotheses, and `charTok` is a
concrete executable instance used for witnesses and counterexamples),
database repositories become explicit state passing, and every fallible
collaborator (parser, classifier client, embedding client, persistence)
becomes an injected `Except` value.
-/

unseal Rat.inv Rat.mul

/-- Python strings, modelled as lists of characters. -/
abbrev Str := List Char

/-- The whitespace characters recognised by Python str.strip in the ASCII
range used by this development. -/
def pyWS (c : Char) : Bool :=
  c = ' ' || c = '\n' || c = '\t' || c = '\r' || c = '\x0b' || c = '\x0c'

/-- Python str.strip: drop leading and trailing whitespace. -/
def pyStrip (s : Str) : Str :=
  ((s.dropWhile pyWS).reverse.dropWhile pyWS).reverse

/-- Python text.split with separator a blank line, i.e. the two-character
string of two newlines: split on each non-overlapping occurrence, scanning
left to right, keeping empty pieces (services/chunker.py, line 180).
The accumulator holds the current piece reversed. -/
def splitOnBlank : Str → Str → List Str
  | [], acc => [acc.reverse]
  | '\n' :: '\n' :: rest, acc => acc.reverse :: splitOnBlank rest []
  | c :: rest, acc => splitOnBlank rest (c :: acc)

/-- Chunker._split_into_paragraphs: split on blank lines, strip each piece,
drop the pieces that are empty after stripping. -/
def split_into_paragraphs (text : Str) : List Str :=
  ((splitOnBlank text []).map pyStrip).filter (fun p => !p.isEmpty)

/-- Sentence-ending punctuation of the regex in
Chunker._split_into_sentences. -/
def isSentPunct (c : Char) : Bool :=
  c = '.' || c = '!' || c = '?'

/-- The capital letters the sentence regex looks ahead for. -/
def isUpperStart (c : Char) : Bool :=
  (('A' : Char) ≤ c && c ≤ ('Z' : Char)) || c = 'Ä' || c = 'Ö' || c = 'Ü'

/-- One scanning pass of re.split with the pattern of
Chunker._split_into_sentences: a split point lies between a [.!?] and a
maximal whitespace run that is followed by an upper-case letter; the
whitespace run is consumed.  The zero-width end-of-string alternative of
the regex only ever adds a trailing piece of whitespace, which the
strip-and-filter done by the caller removes, so it is folded into the
end-of-input case here.  The first argument is fuel (the input length
suffices, as every step consumes at least one character). -/
def sentSplitGo : Nat → Str → Str → List Str
  | 0, _, acc => [acc.reverse]
  | _ + 1, [], acc => [acc.reverse]
  | fuel + 1, c :: rest, acc =>
    if isSentPunct (acc.headD ' ') && pyWS c then
      match (c :: rest).drop ((c :: rest).takeWhile pyWS).length with
      | [] => sentSplitGo fuel rest (c :: acc)
      | a :: after =>
        if isUpperStart a then acc.reverse :: sentSplitGo fuel (a :: after) []
        else sentSplitGo fuel rest (c :: acc)
    else sentSplitGo fuel rest (c :: acc)

/-- Chunker._split_into_sentences: regex split, then strip each piece and
drop pieces that are empty after stripping. -/
def split_into_sentences (text : Str) : List Str :=
  ((sentSplitGo text.length text []).map pyStrip).filter (fun s => !s.isEmpty)

/-- The tokenizer interface used by the chunker (tiktoken cl100k_base in
the code): encode text to a token list, decode a token list back to
text.  Token counting is the length of the encoding
(Chunker.count_tokens). -/
structure Tokenizer (τ : Type) where
  encode : Str → List τ
  decode : List τ → Str

/-- Chunker.count_tokens: length of the encoding. -/
def count_tokens {τ : Type} (tok : Tokenizer τ) (s : Str) : Nat :=
  (tok.encode s).length

/-- A concrete executable tokenizer in which every character is one token.
Used to instantiate theorems and to evaluate the chunker on concrete
inputs. -/
def charTok : Tokenizer Char :=
  ⟨fun s => s, fun l => l⟩

/-- A chunk of text with metadata (services/chunker.py, TextChunk). -/
structure TextChunk where
  content : Str
  page_number : Option Nat
  chunk_index : Nat
  token_count : Nat
  deriving Repr, DecidableEq

/-- Chunker._get_overlap_text: the last chunk_overlap tokens of the text,
decoded.  When the text has at most chunk_overlap tokens the text itself is
returned.  With chunk_overlap = 0 the Python slice tokens[-0:] is the whole
token list, so the whole text (re-decoded) is returned; this quirk is
embedded faithfully. -/
def get_overlap_text {τ : Type} (tok : Tokenizer τ) (chunk_overlap : Nat) (text : Str) : Str :=
  let tokens := tok.encode text
  if tokens.length ≤ chunk_overlap then text
  else if chunk_overlap = 0 then tok.decode tokens
  else tok.decode (tokens.drop (tokens.length - chunk_overlap))

/-- The loop of Chunker._force_split_by_tokens, unrolled on fuel: take
windows of chunk_size tokens starting at i, advancing to end - chunk_overlap
while the window does not reach the end of the token list.  The fuel
tokens.length + 1 supplied by force_split_by_tokens is sufficient whenever
chunk_overlap < chunk_size; when chunk_overlap ≥ chunk_size the Python loop
diverges on long inputs (claim C10 studies the raw index iteration on ℤ,
where the Python subtraction end - chunk_overlap can go negative; here the
index stays a truncated ℕ, which agrees with Python on every terminating
run with chunk_overlap < chunk_size). -/
def force_split_go {τ : Type} (tok : Tokenizer τ) (chunk_size chunk_overlap : Nat)
    (page_number : Option Nat) (tokens : List τ) :
    Nat → Nat → Nat → List TextChunk
  | 0, _, _ => []
  | fuel + 1, i, chunk_index =>
    if i < tokens.length then
      let e := min (i + chunk_size) tokens.length
      let chunk_toks := (tokens.drop i).take (e - i)
      let next_i := if e < tokens.length then e - chunk_overlap else e
      ⟨tok.decode chunk_toks, page_number, chunk_index, chunk_toks.length⟩ ::
        force_split_go tok chunk_size chunk_overlap page_number tokens fuel next_i (chunk_index + 1)
    else []

/-- Chunker._force_split_by_tokens: force split text by token count. -/
def force_split_by_tokens {τ : Type} (tok : Tokenizer τ) (chunk_size chunk_overlap : Nat)
    (text : Str) (page_number : Option Nat) (start_index : Nat) : List TextChunk :=
  let tokens := tok.encode text
  force_split_go tok chunk_size chunk_overlap page_number tokens (tokens.length + 1) 0 start_index

/-- The sentence loop of Chunker._split_large_text: state is the remaining
sentences, the running buffer, the stored token count of the buffer and the
next chunk index.  Sentences are joined with a single space; flushed chunks
store the stripped buffer but keep the token count of the unstripped
buffer; the final flush recounts the stripped buffer. -/
def split_large_go {τ : Type} (tok : Tokenizer τ) (chunk_size chunk_overlap : Nat)
    (page_number : Option Nat) :
    List Str → Str → Nat → Nat → List TextChunk
  | [], cur, _, idx =>
    if (pyStrip cur).isEmpty then []
    else [⟨pyStrip cur, page_number, idx, count_tokens tok (pyStrip cur)⟩]
  | s :: rest, cur, curTok, idx =>
    let st := count_tokens tok s
    if chunk_size < st then
      if (pyStrip cur).isEmpty then
        let fs := force_split_by_tokens tok chunk_size chunk_overlap s page_number idx
        fs ++ split_large_go tok chunk_size chunk_overlap page_number rest [] 0 (idx + fs.length)
      else
        let fs := force_split_by_tokens tok chunk_size chunk_overlap s page_number (idx + 1)
        ⟨pyStrip cur, page_number, idx, curTok⟩ ::
          (fs ++ split_large_go tok chunk_size chunk_overlap page_number rest [] 0 (idx + 1 + fs.length))
    else if chunk_size < curTok + st then
      if (pyStrip cur).isEmpty then
        split_large_go tok chunk_size chunk_overlap page_number rest s st idx
      else
        let ov := get_overlap_text tok chunk_overlap cur
        let cur2 := ov ++ [' '] ++ s
        ⟨pyStrip cur, page_number, idx, curTok⟩ ::
          split_large_go tok chunk_size chunk_overlap page_number rest cur2
            (count_tokens tok cur2) (idx + 1)
    else
      let cur2 := if cur.isEmpty then s else cur ++ [' '] ++ s
      split_large_go tok chunk_size chunk_overlap page_number rest cur2
        (count_tokens tok cur2) idx

/-- Chunker._split_large_text: split an oversized paragraph on sentence
boundaries, force splitting any sentence that alone exceeds chunk_size. -/
def split_large_text {τ : Type} (tok : Tokenizer τ) (chunk_size chunk_overlap : Nat)
    (text : Str) (page_number : Option Nat) (start_index : Nat) : List TextChunk :=
  split_large_go tok chunk_size chunk_overlap page_number
    (split_into_sentences text) [] 0 start_index

/-- A parsed page (services/pdf_parser.py, ParsedPage). -/
structure ParsedPage where
  page_number : Nat
  text : Str
  deriving Repr, DecidableEq

/-- A parsed document (services/pdf_parser.py, ParsedDocument). -/
structure ParsedDocument where
  filename : Str
  pages : List ParsedPage
  page_count : Nat
  deriving Repr, DecidableEq

/-- ParsedDocument.full_text: pages joined by blank lines. -/
def full_text (doc : ParsedDocument) : Str :=
  match doc.pages.map ParsedPage.text with
  | [] => []
  | t :: ts => ts.foldl (fun a b => a ++ ['\n', '\n'] ++ b) t

/-- The paragraph loop of Chunker._chunk_page, same state shape as
split_large_go; paragraphs are joined with a blank line, and a paragraph
that alone exceeds chunk_size is handed to split_large_text after the
pending buffer is flushed. -/
def chunk_page_go {τ : Type} (tok : Tokenizer τ) (chunk_size chunk_overlap : Nat)
    (page_number : Option Nat) :
    List Str → Str → Nat → Nat → List TextChunk
  | [], cur, _, idx =>
    if (pyStrip cur).isEmpty then []
    else [⟨pyStrip cur, page_number, idx, count_tokens tok (pyStrip cur)⟩]
  | p :: rest, cur, curTok, idx =>
    let pt := count_tokens tok p
    if chunk_size < pt then
      if (pyStrip cur).isEmpty then
        let pcs := split_large_text tok chunk_size chunk_overlap p page_number idx
        pcs ++ chunk_page_go tok chunk_size chunk_overlap page_number rest [] 0 (idx + pcs.length)
      else
        let pcs := split_large_text tok chunk_size chunk_overlap p page_number (idx + 1)
        ⟨pyStrip cur, page_number, idx, curTok⟩ ::
          (pcs ++ chunk_page_go tok chunk_size chunk_overlap page_number rest [] 0
            (idx + 1 + pcs.length))
    else if chunk_size < curTok + pt then
      if (pyStrip cur).isEmpty then
        chunk_page_go tok chunk_size chunk_overlap page_number rest p pt idx
      else
        let ov := get_overlap_text tok chunk_overlap cur
        let cur2 := ov ++ ['\n', '\n'] ++ p
        ⟨pyStrip cur, page_number, idx, curTok⟩ ::
          chunk_page_go tok chunk_size chunk_overlap page_number rest cur2
            (count_tokens tok cur2) (idx + 1)
    else
      let cur2 := if cur.isEmpty then p else cur ++ ['\n', '\n'] ++ p
      chunk_page_go tok chunk_size chunk_overlap page_number rest cur2
        (count_tokens tok cur2) idx

/-- Chunker._chunk_page: split one page into chunks, starting at
start_index.  A page that is only whitespace yields no chunks. -/
def chunk_page {τ : Type} (tok : Tokenizer τ) (chunk_size chunk_overlap : Nat)
    (page : ParsedPage) (start_index : Nat) : List TextChunk :=
  if (pyStrip page.text).isEmpty then []
  else
    chunk_page_go tok chunk_size chunk_overlap (some page.page_number)
      (split_into_paragraphs page.text) [] 0 start_index

/-- The page loop of Chunker.chunk_document: chunk each page, advancing the
running chunk index by the number of chunks the page produced. -/
def chunk_document_go {τ : Type} (tok : Tokenizer τ) (chunk_size chunk_overlap : Nat) :
    List ParsedPage → Nat → List TextChunk
  | [], _ => []
  | pg :: rest, idx =>
    let pcs := chunk_page tok chunk_size chunk_overlap pg idx
    pcs ++ chunk_document_go tok chunk_size chunk_overlap rest (idx + pcs.length)

/-- Chunker.chunk_document: split a parsed document into chunks; the chunk
index runs over the whole document. -/
def chunk_document {τ : Type} (tok : Tokenizer τ) (chunk_size chunk_overlap : Nat)
    (doc : ParsedDocument) : List TextChunk :=
  chunk_document_go tok chunk_size chunk_overlap doc.pages 0

/-- The text of the demonstration page: three paragraphs of five, four and
four characters. -/
def demoText : Str := "ab cd\n\nefgh\n\nijkl".data

/-- A one-page demonstration document; with chunk_size 5 no paragraph of
demoText exceeds the budget, so the paragraph accumulator is the only code
path exercised. -/
def demoDoc : ParsedDocument :=
  ⟨ "doc.pdf".data, [⟨1, demoText⟩], 1⟩

/-- The raw index iteration of the while loop in
Chunker._force_split_by_tokens, over the Python integers: from position i,
the window end is min (i + chunk_size) len, and the next position is
end - chunk_overlap while the window stopped short of the end of the token
list, otherwise end itself. -/
def fsStep (chunk_size chunk_overlap len : ℤ) (i : ℤ) : ℤ :=
  let e := min (i + chunk_size) len
  if e < len then e - chunk_overlap else e

/-- One item of an embeddings API batch response: the service-provided index
and the vector (floats modelled as rationals). -/
structure EmbedItem where
  index : Nat
  embedding : List ℚ
  deriving Repr, DecidableEq

/-- Maximum batch size for the embeddings API (services/embedder.py). -/
def MAX_BATCH_SIZE : Nat := 2048

/-- The batching loop of Embedder.embed_texts: texts[i : i + bs] for
i = 0, bs, 2·bs, …  The Python range step is the constant MAX_BATCH_SIZE,
so the step-zero case (where Python range would raise) is mapped to no
batches. -/
def toBatches {α : Type} : Nat → List α → List (List α)
  | _, [] => []
  | 0, _ :: _ => []
  | bs + 1, x :: xs =>
    if (x :: xs).length ≤ bs + 1 then [x :: xs]
    else (x :: xs).take (bs + 1) :: toBatches (bs + 1) ((x :: xs).drop (bs + 1))
termination_by _ l => l.length
decreasing_by
  simp [List.length_drop]
  omega

/-- The comparison key of sorted(response.data, key=lambda x: x.index). -/
def idxLe (a b : EmbedItem) : Bool :=
  decide (a.index ≤ b.index)

/-- Embedder.embed_texts: empty input short-circuits to the empty list;
otherwise each batch response is sorted by the service-provided index and
the per-batch embeddings are concatenated in batch order.  The embeddings
API is the injected svc. -/
def embed_texts (svc : List Str → List EmbedItem) (texts : List Str) : List (List ℚ) :=
  if texts.isEmpty then []
  else
    ((toBatches MAX_BATCH_SIZE texts).map
      (fun batch =>
        (List.insertionSort (fun a b => idxLe a b = true) (svc batch)).map
          EmbedItem.embedding)).flatten

/-- A chunk row as stored by the chunk repository. -/
structure StoredChunk where
  id : Nat
  document_id : Nat
  content : Str
  page_number : Option Nat
  chunk_index : Nat
  deriving Repr, DecidableEq

/-- A retrieved chunk with metadata (services/retriever.py). -/
structure RetrievedChunk where
  chunk_id : Nat
  document_id : Nat
  filename : Str
  content : Str
  page_number : Option Nat
  score : ℚ
  deriving Repr, DecidableEq

/-- The fallback filename when a chunk's document cannot be resolved. -/
def unknownName : Str := "Unknown".data

/-- Retriever.retrieve, from the similarity search onwards: the search
backend's ranked (chunk, score) list is injected, results below min_score
are dropped, and each kept chunk is paired with its document's filename
(the per-call cache in the code only avoids repeated lookups of the pure
docFilename map, so it does not change the result). -/
def retrieve (docFilename : Nat → Option Str) (searchResults : List (StoredChunk × ℚ))
    (min_score : ℚ) : List RetrievedChunk :=
  searchResults.filterMap (fun r =>
    if r.2 < min_score then none
    else
      some ⟨r.1.id, r.1.document_id, (docFilename r.1.document_id).getD unknownName,
        r.1.content, r.1.page_number, r.2⟩)

/-- Assignment into the Python dict all_chunks: overwrite in place when the
key exists (keeping its insertion position), append otherwise. -/
def insertOverwrite (k : Nat) (v : RetrievedChunk) :
    List (Nat × RetrievedChunk) → List (Nat × RetrievedChunk)
  | [] => [(k, v)]
  | (k2, v2) :: rest =>
    if k2 = k then (k, v) :: rest else (k2, v2) :: insertOverwrite k v rest

/-- The guarded insertion for context chunks: only inserted when the key is
absent. -/
def insertIfAbsent (k : Nat) (v : RetrievedChunk) (l : List (Nat × RetrievedChunk)) :
    List (Nat × RetrievedChunk) :=
  if (l.lookup k).isSome then l else l ++ [(k, v)]

/-- The dict comprehension chunk_indices = {c.id: i for i, c in
enumerate(doc_chunks)} followed by .get: the last enumeration index whose
chunk id matches wins. -/
def lastIndexOf (cid : Nat) (chunks : List StoredChunk) : Option Nat :=
  (chunks.enum.filterMap (fun q => if q.2.id = cid then some q.1 else none)).getLast?

/-- The context chunk built for a neighbour c of a primary chunk p: it
keeps the stored chunk's identity, content and page, takes the primary's
filename, and gets the synthetic score primary score × 0.9. -/
def ctxChunkOf (p : RetrievedChunk) (c : StoredChunk) : RetrievedChunk :=
  ⟨c.id, c.document_id, p.filename, c.content, c.page_number, p.score * (9 / 10)⟩

/-- The body of the primary-chunk loop of Retriever.retrieve_with_context:
record the primary chunk itself, then walk the window of context_chunks
neighbours on each side of its position in the document's chunk list,
giving each newly added context chunk the primary's filename and the
synthetic score primary score × 0.9. -/
def addContextFor (docChunks : Nat → List StoredChunk) (context_chunks : Nat)
    (p : RetrievedChunk) (acc : List (Nat × RetrievedChunk)) : List (Nat × RetrievedChunk) :=
  let acc1 := insertOverwrite p.chunk_id p acc
  let dcs := docChunks p.document_id
  match lastIndexOf p.chunk_id dcs with
  | none => acc1
  | some current_idx =>
    let start_idx := current_idx - context_chunks
    let end_idx := min dcs.length (current_idx + context_chunks + 1)
    ((dcs.drop start_idx).take (end_idx - start_idx)).foldl
      (fun a c => insertIfAbsent c.id (ctxChunkOf p c) a) acc1

/-- The page component of the final sort key: c.page_number or 0. -/
def pageKey (c : RetrievedChunk) : Nat :=
  c.page_number.getD 0

/-- The final ordering of retrieve_with_context: ascending lexicographic on
(document id, page number or zero, score). -/
def ctxKeyLe (a b : RetrievedChunk) : Bool :=
  decide (a.document_id < b.document_id) ||
    (decide (a.document_id = b.document_id) &&
      (decide (pageKey a < pageKey b) ||
        (decide (pageKey a = pageKey b) && decide (a.score ≤ b.score))))

/-- The merge-and-sort tail of retrieve_with_context, given the primary
list. -/
def contextMerge (docChunks : Nat → List StoredChunk) (context_chunks : Nat)
    (primary : List RetrievedChunk) : List RetrievedChunk :=
  List.insertionSort (fun a b => ctxKeyLe a b = true)
    ((primary.foldl (fun acc p => addContextFor docChunks context_chunks p acc) []).map
      Prod.snd)

/-- Retriever.retrieve_with_context: fetch primary results (note: the code
calls retrieve without min_score, so the 0.0 default applies), return them
unchanged when there are none or context_chunks is zero, otherwise merge in
neighbour windows and sort. -/
def retrieve_with_context (docFilename : Nat → Option Str)
    (docChunks : Nat → List StoredChunk) (searchResults : List (StoredChunk × ℚ))
    (context_chunks : Nat) : List RetrievedChunk :=
  let primary_chunks := retrieve docFilename searchResults 0
  if primary_chunks.isEmpty || context_chunks = 0 then primary_chunks
  else contextMerge docChunks context_chunks primary_chunks

/-- A cited source (core/models.py, Source). -/
structure Source where
  document_id : Nat
  filename : Str
  page_number : Option Nat
  chunk_content : Str
  score : ℚ
  deriving Repr, DecidableEq

/-- The Source built from a retrieved chunk in RAGService._build_sources:
the excerpt is the content truncated to 500 characters. -/
def mkSource (c : RetrievedChunk) : Source :=
  ⟨c.document_id, c.filename, c.page_number, c.content.take 500, c.score⟩

/-- The deduplication loop of RAGService._build_sources: skip a chunk whose
(document id, page number) pair was already seen. -/
def dedupGo : List RetrievedChunk → List (Nat × Option Nat) → List Source
  | [], _ => []
  | c :: rest, seen =>
    if (c.document_id, c.page_number) ∈ seen then dedupGo rest seen
    else mkSource c :: dedupGo rest ((c.document_id, c.page_number) :: seen)

/-- sources.sort(key=lambda s: s.score, reverse=True): a stable sort that
puts higher scores first. -/
def scoreDescLe (a b : Source) : Bool :=
  decide (b.score ≤ a.score)

/-- RAGService._build_sources: deduplicate by (document id, page number),
first occurrence winning, then sort by score descending. -/
def build_sources (chunks : List RetrievedChunk) : List Source :=
  List.insertionSort (fun a b => scoreDescLe a b = true) (dedupGo chunks [])

/-- RAG query configuration with the defaults of services/rag.py
(generation parameters that do not affect the modelled control flow are
omitted). -/
structure RAGConfig where
  top_k : Nat := 5
  include_context : Bool := true
  context_chunks : Nat := 1
  min_score : ℚ := 3 / 10
  deriving Repr, DecidableEq

/-- The fixed no-information answer of RAGService.query. -/
def noInfoAnswer : Str :=
  "Ich konnte keine relevanten Informationen in den Dokumenten finden.".data

/-- Decimal digits of a natural number (fuel-based division loop). -/
def natToStrGo : Nat → Nat → Str
  | 0, _ => []
  | fuel + 1, n =>
    if n < 10 then [Char.ofNat (48 + n)]
    else natToStrGo fuel (n / 10) ++ [Char.ofNat (48 + n % 10)]

/-- Decimal rendering of a natural number, for the context headers. -/
def natToStr (n : Nat) : Str :=
  natToStrGo (n + 1) n

/-- The header of one context block in RAGService._build_context; the page
suffix is omitted for a falsy page number (None or 0), as in the Python
conditional expression. -/
def chunkHeader (i : Nat) (c : RetrievedChunk) : Str :=
  let page_info : Str :=
    match c.page_number with
    | none => []
    | some 0 => []
    | some p => ", Seite ".data ++ natToStr p
  "[Quelle ".data ++ natToStr i ++ ": ".data ++ c.filename ++ page_info ++ "]".data

/-- RAGService._build_context: chunks in retrieval order, each prefixed
with its numbered header, joined by a visible divider. -/
def build_context (chunks : List RetrievedChunk) : Str :=
  let parts := chunks.enum.map (fun q => chunkHeader (q.1 + 1) q.2 ++ ['\n'] ++ q.2.content)
  match parts with
  | [] => []
  | x :: xs => xs.foldl (fun a b => a ++ "\n\n---\n\n".data ++ b) x

/-- The observable outcome of RAGService.query: the answer, the source
list, and whether the generation service was invoked. -/
structure QueryOutcome where
  answer : Str
  sources : List Source
  gen_called : Bool
  deriving Repr, DecidableEq

/-- RAGService.query: retrieve (context-expanded when configured, in which
case no min_score is passed and the retriever's 0.0 default applies;
otherwise with the configured min_score), return the fixed no-information
answer with no sources when nothing was retrieved, otherwise invoke
generation on the built context and build the source list. -/
def rag_query (cfg : RAGConfig) (docFilename : Nat → Option Str)
    (docChunks : Nat → List StoredChunk) (searchResults : List (StoredChunk × ℚ))
    (gen : Str → Str → Str) (question : Str) : QueryOutcome :=
  let chunks :=
    if cfg.include_context then
      retrieve_with_context docFilename docChunks searchResults cfg.context_chunks
    else retrieve docFilename searchResults cfg.min_score
  if chunks.isEmpty then ⟨noInfoAnswer, [], false⟩
  else ⟨gen question (build_context chunks), build_sources chunks, true⟩

/-- Document types (core/models.py, DocumentType). -/
inductive DocumentType
  | mietvertrag
  | gutachten
  | grundbuchauszug
  | nebenkostenabrechnung
  | unknown
  deriving Repr, DecidableEq

/-- Document lifecycle status (core/models.py, ProcessingStatus). -/
inductive ProcessingStatus
  | pending
  | processing
  | completed
  | failed
  deriving Repr, DecidableEq

/-- Python str.lower, character by character. -/
def pyLower (s : Str) : Str :=
  s.map Char.toLower

/-- The label table of DocumentClassifier.classify; any other response maps
to unknown. -/
def classify_mapping (r : Str) : DocumentType :=
  if r = "mietvertrag".data then .mietvertrag
  else if r = "gutachten".data then .gutachten
  else if r = "grundbuchauszug".data then .grundbuchauszug
  else if r = "nebenkostenabrechnung".data then .nebenkostenabrechnung
  else .unknown

/-- DocumentClassifier.classify: empty (after stripping) text
short-circuits to unknown without a client call; otherwise the injected
chat response is stripped, lower-cased and mapped through the label table,
and a client error is wrapped into the ClassificationError message.  (The
prompt built from the first 3000 characters only affects what is sent to
the client, which is injected here, so it does not appear in the model.) -/
def classify (client : Except Str Str) (text : Str) : Except Str DocumentType :=
  if (pyStrip text).isEmpty then .ok .unknown
  else
    match client with
    | .ok resp => .ok (classify_mapping (pyLower (pyStrip resp)))
    | .error e => .error ( "Failed to classify document: ".data ++ e)

/-- Embedder.embed_chunks by way of embed_texts: an embeddings API failure
is wrapped into the EmbeddingError message and aborts the whole request;
otherwise the chunks are zipped with their embeddings. -/
def embed_chunks_model (client : Except Str Unit) (svc : List Str → List EmbedItem)
    (chunks : List TextChunk) : Except Str (List (TextChunk × List ℚ)) :=
  match client with
  | .error e => .error ( "Failed to generate embeddings: ".data ++ e)
  | .ok _ => .ok (chunks.zip (embed_texts svc (chunks.map TextChunk.content)))

/-- The typed exceptions that can cross the ingestion pipeline's try block,
tagged by the collaborator that raised them, each carrying the exception's
message. -/
inductive PipeExc
  | pdfParser (msg : Str)
  | classifier (msg : Str)
  | embedding (msg : Str)
  | db (msg : Str)
  deriving Repr, DecidableEq

/-- The str() of a pipeline exception. -/
def pipeExcMsg : PipeExc → Str
  | .pdfParser m => m
  | .classifier m => m
  | .embedding m => m
  | .db m => m

/-- IngestionError as raised to the caller: the message built by the except
handler, and the offending exception preserved by raise … from e. -/
structure IngestionError where
  message : Str
  cause : PipeExc
  deriving Repr, DecidableEq

/-- The injected collaborator outcomes of one ingestion run.  ingest_file
and ingest_bytes differ only in which parser entry point produces the
parse result; everything after parsing is literally the same code, so both
are instances of the one `ingest` below. -/
structure PipelineEnv where
  parse_result : Except Str ParsedDocument
  classify_client : Except Str Str
  embed_client : Except Str Unit
  embed_svc : List Str → List EmbedItem
  persist_result : Except Str Unit
  extract_result : Except Str Str

/-- The final state observable after one ingestion run: the document's
status as persisted, and the value returned or the error raised.  In the
code the status update to failed happens in the except handler before the
IngestionError is re-raised, so an error outcome is observed with the
status already persisted. -/
structure IngestOutcome where
  status : ProcessingStatus
  result : Except IngestionError Unit
  deriving Repr

/-- The try-block body of IngestionPipeline.ingest_file / ingest_bytes
after parsing: conditional classification, chunking, the zero-chunk early
completion, embedding, chunk persistence, and the best-effort extraction
sub-step whose ExtractionError is swallowed. -/
def ingest_body {τ : Type} (tok : Tokenizer τ) (chunk_size chunk_overlap : Nat)
    (env : PipelineEnv) (document_type : DocumentType) (auto_extract : Bool)
    (parsed : ParsedDocument) : Except PipeExc Unit :=
  let cls : Except PipeExc DocumentType :=
    if document_type = .unknown then
      match classify env.classify_client (full_text parsed) with
      | .ok t => .ok t
      | .error m => .error (.classifier m)
    else .ok document_type
  match cls with
  | .error e => .error e
  | .ok ty =>
    let chunks := chunk_document tok chunk_size chunk_overlap parsed
    if chunks.isEmpty then .ok ()
    else
      match embed_chunks_model env.embed_client env.embed_svc chunks with
      | .error m => .error (.embedding m)
      | .ok _ =>
        match env.persist_result with
        | .error m => .error (.db m)
        | .ok _ =>
          let _ := if auto_extract && ty ≠ .unknown then some env.extract_result else none
          .ok ()

/-- IngestionPipeline.ingest_file / ingest_bytes from document creation
onwards: a parse failure takes the PDFParserError handler, any other
escaping exception takes the generic handler; both move the document to
failed and raise an IngestionError wrapping the cause. -/
def ingest {τ : Type} (tok : Tokenizer τ) (chunk_size chunk_overlap : Nat)
    (env : PipelineEnv) (document_type : DocumentType) (auto_extract : Bool) : IngestOutcome :=
  match env.parse_result with
  | .error m => ⟨.failed, .error ⟨ "Failed to parse PDF: ".data ++ m, .pdfParser m⟩⟩
  | .ok parsed =>
    match ingest_body tok chunk_size chunk_overlap env document_type auto_extract parsed with
    | .ok _ => ⟨.completed, .ok ()⟩
    | .error (.pdfParser m) =>
      ⟨.failed, .error ⟨ "Failed to parse PDF: ".data ++ m, .pdfParser m⟩⟩
    | .error e => ⟨.failed, .error ⟨ "Ingestion failed: ".data ++ pipeExcMsg e, e⟩⟩

/-- A document row as seen by extract_document. -/
structure DocRecord where
  status : ProcessingStatus
  document_type : DocumentType
  chunks : List StoredChunk
  deriving Repr, DecidableEq

/-- An extracted-data row. -/
structure ExtractedRec where
  document_type : DocumentType
  data : Str
  confidence : ℚ
  deriving Repr, DecidableEq

/-- The persisted state that extract_document touches. -/
structure DbState where
  documents : List (Nat × DocRecord)
  extracted : List (Nat × ExtractedRec)
  deriving Repr, DecidableEq

/-- Join a list of texts with blank lines, as "\n\n".join does. -/
def joinBlank : List Str → Str
  | [] => []
  | t :: ts => ts.foldl (fun a b => a ++ ['\n', '\n'] ++ b) t

/-- sorted(document.chunks, key=lambda c: c.chunk_index). -/
def chunkIdxLe (a b : StoredChunk) : Bool :=
  decide (a.chunk_index ≤ b.chunk_index)

/-- Text reconstruction in extract_document: chunk contents in chunk_index
order, joined by blank lines. -/
def reconstruct_text (doc : DocRecord) : Str :=
  joinBlank ((List.insertionSort (fun a b => chunkIdxLe a b = true) doc.chunks).map
    StoredChunk.content)

/-- ExtractedDataRepository.update: replace the stored data and confidence
of the row for the document, keeping its position and document type. -/
def updateExtracted (document_id : Nat) (d : Str) (conf : ℚ) :
    List (Nat × ExtractedRec) → List (Nat × ExtractedRec)
  | [] => []
  | (k, r) :: rest =>
    if k = document_id then (k, ⟨r.document_type, d, conf⟩) :: rest
    else (k, r) :: updateExtracted document_id d conf rest

/-- IngestionPipeline.extract_document: return existing data unless forced;
otherwise re-run extraction on the text reconstructed from the persisted
chunks and upsert the extracted row, returning none (never raising) when
the document is missing, of unknown type, or extraction fails. -/
def extract_document (extractor : Str → DocumentType → Except Str (Str × ℚ))
    (s : DbState) (document_id : Nat) (force : Bool) : DbState × Option Str :=
  let existing := s.extracted.lookup document_id
  match existing, force with
  | some ex, false => (s, some ex.data)
  | _, _ =>
    match s.documents.lookup document_id with
    | none => (s, none)
    | some doc =>
      if doc.document_type = .unknown then (s, none)
      else
        match extractor (reconstruct_text doc) doc.document_type with
        | .error _ => (s, none)
        | .ok (d, conf) =>
          match existing with
          | some _ =>
            (⟨s.documents, updateExtracted document_id d conf s.extracted⟩, some d)
          | none =>
            (⟨s.documents, s.extracted ++ [(document_id, ⟨doc.document_type, d, conf⟩)]⟩,
              some d)

/-- Appending two runs of consecutive indices gives one run. -/
lemma map_index_append {A B : List TextChunk} {idx : ℕ}
    (hA : A.map TextChunk.chunk_index = List.range' idx A.length)
    (hB : B.map TextChunk.chunk_index = List.range' (idx + A.length) B.length) :
    (A ++ B).map TextChunk.chunk_index = List.range' idx (A ++ B).length := by
  rw [List.map_append, hA, hB, List.length_append]
  have h := List.range'_append idx A.length B.length 1
  rw [Nat.add_comm A.length B.length]
  simp only [one_mul] at h
  exact h

/-- Prepending the chunk carrying the start index extends a run of
consecutive indices downwards. -/
lemma map_index_cons {B : List TextChunk} {c : TextChunk} {idx : ℕ}
    (hc : c.chunk_index = idx)
    (hB : B.map TextChunk.chunk_index = List.range' (idx + 1) B.length) :
    (c :: B).map TextChunk.chunk_index = List.range' idx (c :: B).length := by
  simp [hc, hB, List.range'_succ]

/-- The force-split loop numbers its chunks consecutively from the start
index. -/
lemma force_split_go_indices {τ : Type} (tok : Tokenizer τ) (cs co : ℕ) (pn : Option ℕ)
    (toks : List τ) :
    ∀ (fuel i idx : ℕ),
      (force_split_go tok cs co pn toks fuel i idx).map TextChunk.chunk_index =
        List.range' idx (force_split_go tok cs co pn toks fuel i idx).length := by
  intro fuel
  induction fuel with
  | zero => intro i idx; simp [force_split_go]
  | succ fuel ih =>
    intro i idx
    by_cases h : i < toks.length
    · simp only [force_split_go, if_pos h]
      exact map_index_cons rfl (ih _ _)
    · simp [force_split_go, h]

/-- force_split_by_tokens numbers its chunks consecutively from the start
index. -/
lemma force_split_by_tokens_indices {τ : Type} (tok : Tokenizer τ) (cs co : ℕ)
    (text : Str) (pn : Option ℕ) (idx : ℕ) :
    (force_split_by_tokens tok cs co text pn idx).map TextChunk.chunk_index =
      List.range' idx (force_split_by_tokens tok cs co text pn idx).length :=
  force_split_go_indices tok cs co pn (tok.encode text) ((tok.encode text).length + 1) 0 idx

/-- The sentence loop numbers its chunks consecutively from the start
index. -/
lemma split_large_go_indices {τ : Type} (tok : Tokenizer τ) (cs co : ℕ) (pn : Option ℕ) :
    ∀ (sents : List Str) (cur : Str) (curTok idx : ℕ),
      (split_large_go tok cs co pn sents cur curTok idx).map TextChunk.chunk_index =
        List.range' idx (split_large_go tok cs co pn sents cur curTok idx).length := by
  intro sents
  induction sents with
  | nil =>
    intro cur curTok idx
    by_cases h : (pyStrip cur).isEmpty <;> simp [split_large_go, h]
  | cons s rest ih =>
    intro cur curTok idx
    by_cases h1 : cs < count_tokens tok s
    · by_cases h2 : (pyStrip cur).isEmpty
      · simp only [split_large_go, if_pos h1, if_pos h2]
        exact map_index_append (force_split_by_tokens_indices _ _ _ _ _ _) (ih _ _ _)
      · simp only [split_large_go, if_pos h1, if_neg h2]
        refine map_index_cons rfl ?_
        have h3 := map_index_append (A := force_split_by_tokens tok cs co s pn (idx + 1))
          (force_split_by_tokens_indices tok cs co s pn (idx + 1)) (ih [] 0 _)
        simpa [Nat.add_assoc] using h3
    · by_cases h2 : cs < curTok + count_tokens tok s
      · by_cases h3 : (pyStrip cur).isEmpty
        · simp only [split_large_go, if_neg h1, if_pos h2, if_pos h3]
          exact ih _ _ _
        · simp only [split_large_go, if_neg h1, if_pos h2, if_neg h3]
          exact map_index_cons rfl (ih _ _ _)
      · simp only [split_large_go, if_neg h1, if_neg h2]
        exact ih _ _ _

/-- split_large_text numbers its chunks consecutively from the start
index. -/
lemma split_large_text_indices {τ : Type} (tok : Tokenizer τ) (cs co : ℕ) (text : Str)
    (pn : Option ℕ) (idx : ℕ) :
    (split_large_text tok cs co text pn idx).map TextChunk.chunk_index =
      List.range' idx (split_large_text tok cs co text pn idx).length :=
  split_large_go_indices tok cs co pn (split_into_sentences text) [] 0 idx

/-- The paragraph loop numbers its chunks consecutively from the start
index. -/
lemma chunk_page_go_indices {τ : Type} (tok : Tokenizer τ) (cs co : ℕ) (pn : Option ℕ) :
    ∀ (paras : List Str) (cur : Str) (curTok idx : ℕ),
      (chunk_page_go tok cs co pn paras cur curTok idx).map TextChunk.chunk_index =
        List.range' idx (chunk_page_go tok cs co pn paras cur curTok idx).length := by
  intro paras
  induction paras with
  | nil =>
    intro cur curTok idx
    by_cases h : (pyStrip cur).isEmpty <;> simp [chunk_page_go, h]
  | cons p rest ih =>
    intro cur curTok idx
    by_cases h1 : cs < count_tokens tok p
    · by_cases h2 : (pyStrip cur).isEmpty
      · simp only [chunk_page_go, if_pos h1, if_pos h2]
        exact map_index_append (split_large_text_indices _ _ _ _ _ _) (ih _ _ _)
      · simp only [chunk_page_go, if_pos h1, if_neg h2]
        refine map_index_cons rfl ?_
        have h3 := map_index_append (A := split_large_text tok cs co p pn (idx + 1))
          (split_large_text_indices tok cs co p pn (idx + 1)) (ih [] 0 _)
        simpa [Nat.add_assoc] using h3
    · by_cases h2 : cs < curTok + count_tokens tok p
      · by_cases h3 : (pyStrip cur).isEmpty
        · simp only [chunk_page_go, if_neg h1, if_pos h2, if_pos h3]
          exact ih _ _ _
        · simp only [chunk_page_go, if_neg h1, if_pos h2, if_neg h3]
          exact map_index_cons rfl (ih _ _ _)
      · simp only [chunk_page_go, if_neg h1, if_neg h2]
        exact ih _ _ _

/-- chunk_page numbers its chunks consecutively from the start index. -/
lemma chunk_page_indices {τ : Type} (tok : Tokenizer τ) (cs co : ℕ) (page : ParsedPage)
    (idx : ℕ) :
    (chunk_page tok cs co page idx).map TextChunk.chunk_index =
      List.range' idx (chunk_page tok cs co page idx).length := by
  by_cases h : (pyStrip page.text).isEmpty
  · simp [chunk_page, h]
  · simp only [chunk_page, if_neg h]
    exact chunk_page_go_indices tok cs co (some page.page_number) _ [] 0 idx

/-- The page loop numbers the whole document's chunks consecutively. -/
lemma chunk_document_go_indices {τ : Type} (tok : Tokenizer τ) (cs co : ℕ) :
    ∀ (pages : List ParsedPage) (idx : ℕ),
      (chunk_document_go tok cs co pages idx).map TextChunk.chunk_index =
        List.range' idx (chunk_document_go tok cs co pages idx).length := by
  intro pages
  induction pages with
  | nil => intro idx; simp [chunk_document_go]
  | cons pg rest ih =>
    intro idx
    simp only [chunk_document_go]
    exact map_index_append (chunk_page_indices _ _ _ _ _) (ih _)

/-- C3: for every tokenizer, chunker configuration and parsed document, the
chunk_index values of Chunker.chunk_document form the contiguous, strictly
increasing sequence 0, 1, 2, … over the whole output, i.e. the chunk index
is assigned continuously across pages and never reset per page. -/
theorem chunk_document_chunk_index_contiguous {τ : Type} (tok : Tokenizer τ)
    (chunk_size chunk_overlap : ℕ) (doc : ParsedDocument) :
    (chunk_document tok chunk_size chunk_overlap doc).map TextChunk.chunk_index =
      List.range (chunk_document tok chunk_size chunk_overlap doc).length := by
  rw [List.range_eq_range']
  exact chunk_document_go_indices tok chunk_size chunk_overlap doc.pages 0

/-- Every chunk the force-split loop produces decodes a window of at most
chunk_size tokens: its stored token count is the window length, hence at
most chunk_size, and the token count of its content is at most the stored
count whenever decoding never inflates the token count. -/
lemma force_split_go_chunk_bounds {τ : Type} (tok : Tokenizer τ) (cs co : ℕ)
    (pn : Option ℕ) (toks : List τ)
    (Hdec : ∀ l, count_tokens tok (tok.decode l) ≤ l.length) :
    ∀ (fuel i idx : ℕ), ∀ c ∈ force_split_go tok cs co pn toks fuel i idx,
      count_tokens tok c.content ≤ c.token_count ∧ c.token_count ≤ cs := by
  intro fuel
  induction fuel with
  | zero => intro i idx c hc; simp [force_split_go] at hc
  | succ fuel ih =>
    intro i idx c hc
    by_cases h : i < toks.length
    · simp only [force_split_go, if_pos h, List.mem_cons] at hc
      rcases hc with rfl | hc
      · refine ⟨Hdec _, ?_⟩
        simp only [List.length_take, List.length_drop]
        omega
      · exact ih _ _ c hc
    · simp [force_split_go, h] at hc

/-- Same bounds for force_split_by_tokens. -/
lemma force_split_by_tokens_chunk_bounds {τ : Type} (tok : Tokenizer τ) (cs co : ℕ)
    (text : Str) (pn : Option ℕ) (idx : ℕ)
    (Hdec : ∀ l, count_tokens tok (tok.decode l) ≤ l.length) :
    ∀ c ∈ force_split_by_tokens tok cs co text pn idx,
      count_tokens tok c.content ≤ c.token_count ∧ c.token_count ≤ cs :=
  force_split_go_chunk_bounds tok cs co pn (tok.encode text) Hdec _ 0 idx

/-- The buffer invariant of the sentence loop: either the buffer is the
fresh empty string with stored count zero, or the stored count is the token
count of the buffer.  Under it, every produced chunk's content counts at
most its stored token count. -/
lemma split_large_go_content {τ : Type} (tok : Tokenizer τ) (cs co : ℕ) (pn : Option ℕ)
    (Hstrip : ∀ s, count_tokens tok (pyStrip s) ≤ count_tokens tok s)
    (Hdec : ∀ l, count_tokens tok (tok.decode l) ≤ l.length) :
    ∀ (sents : List Str) (cur : Str) (curTok idx : ℕ),
      ((cur = [] ∧ curTok = 0) ∨ curTok = count_tokens tok cur) →
      ∀ c ∈ split_large_go tok cs co pn sents cur curTok idx,
        count_tokens tok c.content ≤ c.token_count := by
  intro sents
  induction sents with
  | nil =>
    intro cur curTok idx _ c hc
    by_cases h : (pyStrip cur).isEmpty
    · simp [split_large_go, h] at hc
    · simp only [split_large_go, if_neg h, List.mem_singleton] at hc
      subst hc
      exact le_refl _
  | cons s rest ih =>
    intro cur curTok idx hinv c hc
    have hflush : ¬(pyStrip cur).isEmpty → curTok = count_tokens tok cur := by
      intro hne
      rcases hinv with ⟨rfl, _⟩ | he
      · simp [pyStrip] at hne
      · exact he
    by_cases h1 : cs < count_tokens tok s
    · by_cases h2 : (pyStrip cur).isEmpty
      · simp only [split_large_go, if_pos h1, if_pos h2, List.mem_append] at hc
        rcases hc with hc | hc
        · exact (force_split_by_tokens_chunk_bounds tok cs co s pn _ Hdec c hc).1
        · exact ih [] 0 _ (Or.inl ⟨rfl, rfl⟩) c hc
      · simp only [split_large_go, if_pos h1, if_neg h2, List.mem_cons,
          List.mem_append] at hc
        rcases hc with rfl | hc | hc
        · simpa [hflush h2] using Hstrip cur
        · exact (force_split_by_tokens_chunk_bounds tok cs co s pn _ Hdec c hc).1
        · exact ih [] 0 _ (Or.inl ⟨rfl, rfl⟩) c hc
    · by_cases h2 : cs < curTok + count_tokens tok s
      · by_cases h3 : (pyStrip cur).isEmpty
        · simp only [split_large_go, if_neg h1, if_pos h2, if_pos h3] at hc
          exact ih s _ _ (Or.inr rfl) c hc
        · simp only [split_large_go, if_neg h1, if_pos h2, if_neg h3,
            List.mem_cons] at hc
          rcases hc with rfl | hc
          · simpa [hflush h3] using Hstrip cur
          · exact ih _ _ _ (Or.inr rfl) c hc
      · simp only [split_large_go, if_neg h1, if_neg h2] at hc
        exact ih _ _ _ (Or.inr rfl) c hc

/-- Same content bound for the paragraph loop of _chunk_page. -/
lemma chunk_page_go_content {τ : Type} (tok : Tokenizer τ) (cs co : ℕ) (pn : Option ℕ)
    (Hstrip : ∀ s, count_tokens tok (pyStrip s) ≤ count_tokens tok s)
    (Hdec : ∀ l, count_tokens tok (tok.decode l) ≤ l.length) :
    ∀ (paras : List Str) (cur : Str) (curTok idx : ℕ),
      ((cur = [] ∧ curTok = 0) ∨ curTok = count_tokens tok cur) →
      ∀ c ∈ chunk_page_go tok cs co pn paras cur curTok idx,
        count_tokens tok c.content ≤ c.token_count := by
  intro paras
  induction paras with
  | nil =>
    intro cur curTok idx _ c hc
    by_cases h : (pyStrip cur).isEmpty
    · simp [chunk_page_go, h] at hc
    · simp only [chunk_page_go, if_neg h, List.mem_singleton] at hc
      subst hc
      exact le_refl _
  | cons p rest ih =>
    intro cur curTok idx hinv c hc
    have hflush : ¬(pyStrip cur).isEmpty → curTok = count_tokens tok cur := by
      intro hne
      rcases hinv with ⟨rfl, _⟩ | he
      · simp [pyStrip] at hne
      · exact he
    by_cases h1 : cs < count_tokens tok p
    · by_cases h2 : (pyStrip cur).isEmpty
      · simp only [chunk_page_go, if_pos h1, if_pos h2, List.mem_append] at hc
        rcases hc with hc | hc
        · exact split_large_go_content tok cs co pn Hstrip Hdec _ [] 0 _
            (Or.inl ⟨rfl, rfl⟩) c hc
        · exact ih [] 0 _ (Or.inl ⟨rfl, rfl⟩) c hc
      · simp only [chunk_page_go, if_pos h1, if_neg h2, List.mem_cons,
          List.mem_append] at hc
        rcases hc with rfl | hc | hc
        · simpa [hflush h2] using Hstrip cur
        · exact split_large_go_content tok cs co pn Hstrip Hdec _ [] 0 _
            (Or.inl ⟨rfl, rfl⟩) c hc
        · exact ih [] 0 _ (Or.inl ⟨rfl, rfl⟩) c hc
    · by_cases h2 : cs < curTok + count_tokens tok p
      · by_cases h3 : (pyStrip cur).isEmpty
        · simp only [chunk_page_go, if_neg h1, if_pos h2, if_pos h3] at hc
          exact ih p _ _ (Or.inr rfl) c hc
        · simp only [chunk_page_go, if_neg h1, if_pos h2, if_neg h3,
            List.mem_cons] at hc
          rcases hc with rfl | hc
          · simpa [hflush h3] using Hstrip cur
          · exact ih _ _ _ (Or.inr rfl) c hc
      · simp only [chunk_page_go, if_neg h1, if_neg h2] at hc
        exact ih _ _ _ (Or.inr rfl) c hc

/-- C4 (amended): for every tokenizer under which stripping and decoding
never increase a token count, every chunk of Chunker.chunk_document has
content whose token count is at most the stored token_count.  Equality
can fail (see the counterexample): a chunk flushed mid-accumulation stores
the count of the unstripped buffer while its content is the stripped
buffer. -/
theorem token_count_bounds_content {τ : Type} (tok : Tokenizer τ)
    (chunk_size chunk_overlap : ℕ) (doc : ParsedDocument)
    (Hstrip : ∀ s, count_tokens tok (pyStrip s) ≤ count_tokens tok s)
    (Hdec : ∀ l, count_tokens tok (tok.decode l) ≤ l.length) :
    ∀ c ∈ chunk_document tok chunk_size chunk_overlap doc,
      count_tokens tok c.content ≤ c.token_count := by
  have hpage : ∀ (pg : ParsedPage) (idx : ℕ),
      ∀ c ∈ chunk_page tok chunk_size chunk_overlap pg idx,
        count_tokens tok c.content ≤ c.token_count := by
    intro pg idx c hc
    by_cases h : (pyStrip pg.text).isEmpty
    · simp [chunk_page, h] at hc
    · simp only [chunk_page, if_neg h] at hc
      exact chunk_page_go_content tok chunk_size chunk_overlap _ Hstrip Hdec _ [] 0 idx
        (Or.inl ⟨rfl, rfl⟩) c hc
  have hgo : ∀ (pages : List ParsedPage) (idx : ℕ),
      ∀ c ∈ chunk_document_go tok chunk_size chunk_overlap pages idx,
        count_tokens tok c.content ≤ c.token_count := by
    intro pages
    induction pages with
    | nil => intro idx c hc; simp [chunk_document_go] at hc
    | cons pg rest ih =>
      intro idx c hc
      simp only [chunk_document_go, List.mem_append] at hc
      rcases hc with hc | hc
      · exact hpage pg idx c hc
      · exact ih _ c hc
  exact hgo doc.pages 0

/-- For a positive chunk_overlap, the overlap tail counts at most
chunk_overlap tokens (with chunk_overlap = 0 the Python slice quirk makes
the tail the whole text, which is why positivity is needed). -/
lemma ct_overlap_le {τ : Type} (tok : Tokenizer τ) (co : ℕ) (hco : 0 < co)
    (Hdec : ∀ l, count_tokens tok (tok.decode l) ≤ l.length) (s : Str) :
    count_tokens tok (get_overlap_text tok co s) ≤ co := by
  unfold get_overlap_text
  by_cases h1 : (tok.encode s).length ≤ co
  · simp only [if_pos h1]
    exact h1
  · have hco0 : co ≠ 0 := Nat.pos_iff_ne_zero.mp hco
    simp only [if_neg h1, if_neg hco0]
    calc count_tokens tok (tok.decode ((tok.encode s).drop ((tok.encode s).length - co))) ≤
        ((tok.encode s).drop ((tok.encode s).length - co)).length := Hdec _
      _ ≤ co := by simp [List.length_drop]; omega

/-- The budget invariant of the sentence loop: the stored buffer count
never exceeds chunk_size + chunk_overlap + (tokens of the joining space),
so no flushed chunk exceeds that budget.  Needs subadditive concatenation,
strip and decode that never inflate counts, and a positive overlap. -/
lemma split_large_go_budget {τ : Type} (tok : Tokenizer τ) (cs co : ℕ) (pn : Option ℕ)
    (Hcat : ∀ a b, count_tokens tok (a ++ b) ≤ count_tokens tok a + count_tokens tok b)
    (Hstrip : ∀ s, count_tokens tok (pyStrip s) ≤ count_tokens tok s)
    (Hdec : ∀ l, count_tokens tok (tok.decode l) ≤ l.length)
    (hco : 0 < co) :
    ∀ (sents : List Str) (cur : Str) (curTok idx : ℕ),
      ((cur = [] ∧ curTok = 0) ∨
        (curTok = count_tokens tok cur ∧ curTok ≤ cs + co + count_tokens tok [' '])) →
      ∀ c ∈ split_large_go tok cs co pn sents cur curTok idx,
        c.token_count ≤ cs + co + count_tokens tok [' '] := by
  intro sents
  induction sents with
  | nil =>
    intro cur curTok idx hinv c hc
    by_cases h : (pyStrip cur).isEmpty
    · simp [split_large_go, h] at hc
    · simp only [split_large_go, if_neg h, List.mem_singleton] at hc
      subst hc
      rcases hinv with ⟨rfl, _⟩ | ⟨he, hb⟩
      · simp [pyStrip] at h
      · calc count_tokens tok (pyStrip cur) ≤ count_tokens tok cur := Hstrip cur
          _ ≤ cs + co + count_tokens tok [' '] := he ▸ hb
  | cons s rest ih =>
    intro cur curTok idx hinv c hc
    have hflush : ¬(pyStrip cur).isEmpty →
        curTok = count_tokens tok cur ∧ curTok ≤ cs + co + count_tokens tok [' '] := by
      intro hne
      rcases hinv with ⟨rfl, _⟩ | he
      · simp [pyStrip] at hne
      · exact he
    by_cases h1 : cs < count_tokens tok s
    · by_cases h2 : (pyStrip cur).isEmpty
      · simp only [split_large_go, if_pos h1, if_pos h2, List.mem_append] at hc
        rcases hc with hc | hc
        · have := (force_split_by_tokens_chunk_bounds tok cs co s pn _ Hdec c hc).2
          omega
        · exact ih [] 0 _ (Or.inl ⟨rfl, rfl⟩) c hc
      · simp only [split_large_go, if_pos h1, if_neg h2, List.mem_cons,
          List.mem_append] at hc
        rcases hc with rfl | hc | hc
        · exact (hflush h2).2
        · have := (force_split_by_tokens_chunk_bounds tok cs co s pn _ Hdec c hc).2
          omega
        · exact ih [] 0 _ (Or.inl ⟨rfl, rfl⟩) c hc
    · by_cases h2 : cs < curTok + count_tokens tok s
      · by_cases h3 : (pyStrip cur).isEmpty
        · simp only [split_large_go, if_neg h1, if_pos h2, if_pos h3] at hc
          refine ih s _ _ (Or.inr ⟨rfl, ?_⟩) c hc
          omega
        · simp only [split_large_go, if_neg h1, if_pos h2, if_neg h3,
            List.mem_cons] at hc
          rcases hc with rfl | hc
          · exact (hflush h3).2
          · refine ih _ _ _ (Or.inr ⟨rfl, ?_⟩) c hc
            have hov := ct_overlap_le tok co hco Hdec cur
            have hc1 := Hcat (get_overlap_text tok co cur ++ [' ']) s
            have hc2 := Hcat (get_overlap_text tok co cur) [' ']
            omega
      · simp only [split_large_go, if_neg h1, if_neg h2] at hc
        refine ih _ _ _ (Or.inr ⟨rfl, ?_⟩) c hc
        by_cases h4 : cur.isEmpty
        · simp only [h4, if_pos]
          omega
        · have hcur : cur ≠ [] := by simpa [List.isEmpty_iff] using h4
          rcases hinv with ⟨rfl, _⟩ | ⟨he, _⟩
          · simp at hcur
          · simp only [if_neg h4]
            have hc1 := Hcat (cur ++ [' ']) s
            have hc2 := Hcat cur [' ']
            omega

/-- The budget invariant of the paragraph loop: same shape as the sentence
loop, with the blank-line separator; chunks handed to split_large_text obey
the sentence-loop budget. -/
lemma chunk_page_go_budget {τ : Type} (tok : Tokenizer τ) (cs co : ℕ) (pn : Option ℕ)
    (Hcat : ∀ a b, count_tokens tok (a ++ b) ≤ count_tokens tok a + count_tokens tok b)
    (Hstrip : ∀ s, count_tokens tok (pyStrip s) ≤ count_tokens tok s)
    (Hdec : ∀ l, count_tokens tok (tok.decode l) ≤ l.length)
    (hco : 0 < co) :
    ∀ (paras : List Str) (cur : Str) (curTok idx : ℕ),
      ((cur = [] ∧ curTok = 0) ∨
        (curTok = count_tokens tok cur ∧
          curTok ≤ cs + co + count_tokens tok ['\n', '\n'])) →
      ∀ c ∈ chunk_page_go tok cs co pn paras cur curTok idx,
        c.token_count ≤
          cs + co + max (count_tokens tok ['\n', '\n']) (count_tokens tok [' ']) := by
  intro paras
  induction paras with
  | nil =>
    intro cur curTok idx hinv c hc
    by_cases h : (pyStrip cur).isEmpty
    · simp [chunk_page_go, h] at hc
    · simp only [chunk_page_go, if_neg h, List.mem_singleton] at hc
      subst hc
      rcases hinv with ⟨rfl, _⟩ | ⟨he, hb⟩
      · simp [pyStrip] at h
      · show count_tokens tok (pyStrip cur) ≤ _
        have h1 : count_tokens tok (pyStrip cur) ≤ count_tokens tok cur := Hstrip cur
        have h2 := le_max_left (count_tokens tok ['\n', '\n']) (count_tokens tok [' '])
        omega
  | cons p rest ih =>
    intro cur curTok idx hinv c hc
    have hflush : ¬(pyStrip cur).isEmpty →
        curTok = count_tokens tok cur ∧
          curTok ≤ cs + co + count_tokens tok ['\n', '\n'] := by
      intro hne
      rcases hinv with ⟨rfl, _⟩ | he
      · simp [pyStrip] at hne
      · exact he
    have hmaxL := le_max_left (count_tokens tok ['\n', '\n']) (count_tokens tok [' '])
    have hmaxR := le_max_right (count_tokens tok ['\n', '\n']) (count_tokens tok [' '])
    have hsl : ∀ (idx2 : ℕ), ∀ c2 ∈ split_large_text tok cs co p pn idx2,
        c2.token_count ≤
          cs + co + max (count_tokens tok ['\n', '\n']) (count_tokens tok [' ']) := by
      intro idx2 c2 hc2
      have := split_large_go_budget tok cs co pn Hcat Hstrip Hdec hco
        (split_into_sentences p) [] 0 idx2 (Or.inl ⟨rfl, rfl⟩) c2 hc2
      omega
    by_cases h1 : cs < count_tokens tok p
    · by_cases h2 : (pyStrip cur).isEmpty
      · simp only [chunk_page_go, if_pos h1, if_pos h2, List.mem_append] at hc
        rcases hc with hc | hc
        · exact hsl _ c hc
        · exact ih [] 0 _ (Or.inl ⟨rfl, rfl⟩) c hc
      · simp only [chunk_page_go, if_pos h1, if_neg h2, List.mem_cons,
          List.mem_append] at hc
        rcases hc with rfl | hc | hc
        · show curTok ≤ _
          have := (hflush h2).2
          omega
        · exact hsl _ c hc
        · exact ih [] 0 _ (Or.inl ⟨rfl, rfl⟩) c hc
    · by_cases h2 : cs < curTok + count_tokens tok p
      · by_cases h3 : (pyStrip cur).isEmpty
        · simp only [chunk_page_go, if_neg h1, if_pos h2, if_pos h3] at hc
          refine ih p _ _ (Or.inr ⟨rfl, ?_⟩) c hc
          omega
        · simp only [chunk_page_go, if_neg h1, if_pos h2, if_neg h3,
            List.mem_cons] at hc
          rcases hc with rfl | hc
          · show curTok ≤ _
            have := (hflush h3).2
            omega
          · refine ih _ _ _ (Or.inr ⟨rfl, ?_⟩) c hc
            have hov := ct_overlap_le tok co hco Hdec cur
            have hc1 := Hcat (get_overlap_text tok co cur ++ ['\n', '\n']) p
            have hc2 := Hcat (get_overlap_text tok co cur) ['\n', '\n']
            omega
      · simp only [chunk_page_go, if_neg h1, if_neg h2] at hc
        refine ih _ _ _ (Or.inr ⟨rfl, ?_⟩) c hc
        by_cases h4 : cur.isEmpty
        · simp only [h4, if_pos]
          omega
        · have hcur : cur ≠ [] := by simpa [List.isEmpty_iff] using h4
          rcases hinv with ⟨rfl, _⟩ | ⟨he, _⟩
          · simp at hcur
          · simp only [if_neg h4]
            have hc1 := Hcat (cur ++ ['\n', '\n']) p
            have hc2 := Hcat cur ['\n', '\n']
            omega

/-- C2 (amended): for every tokenizer under which concatenation is
subadditive and stripping and decoding never increase a token count, and
for every configuration with positive chunk_overlap, every chunk of
Chunker.chunk_document has token_count at most
chunk_size + chunk_overlap + (the larger separator's token count).  The
claim's bound of chunk_size itself fails — and not because of the forced
token-window split, whose chunks in fact never exceed chunk_size — because
the accumulation guard ignores the separator joined between buffer and
paragraph, and because a buffer seeded with an overlap tail is flushed
whole (see the counterexample). -/
theorem chunk_token_budget_bounded {τ : Type} (tok : Tokenizer τ)
    (chunk_size chunk_overlap : ℕ) (doc : ParsedDocument)
    (Hcat : ∀ a b, count_tokens tok (a ++ b) ≤ count_tokens tok a + count_tokens tok b)
    (Hstrip : ∀ s, count_tokens tok (pyStrip s) ≤ count_tokens tok s)
    (Hdec : ∀ l, count_tokens tok (tok.decode l) ≤ l.length)
    (hco : 0 < chunk_overlap) :
    ∀ c ∈ chunk_document tok chunk_size chunk_overlap doc,
      c.token_count ≤ chunk_size + chunk_overlap +
        max (count_tokens tok ['\n', '\n']) (count_tokens tok [' ']) := by
  have hpage : ∀ (pg : ParsedPage) (idx : ℕ),
      ∀ c ∈ chunk_page tok chunk_size chunk_overlap pg idx,
        c.token_count ≤ chunk_size + chunk_overlap +
          max (count_tokens tok ['\n', '\n']) (count_tokens tok [' ']) := by
    intro pg idx c hc
    by_cases h : (pyStrip pg.text).isEmpty
    · simp [chunk_page, h] at hc
    · simp only [chunk_page, if_neg h] at hc
      exact chunk_page_go_budget tok chunk_size chunk_overlap _ Hcat Hstrip Hdec hco
        _ [] 0 idx (Or.inl ⟨rfl, rfl⟩) c hc
  have hgo : ∀ (pages : List ParsedPage) (idx : ℕ),
      ∀ c ∈ chunk_document_go tok chunk_size chunk_overlap pages idx,
        c.token_count ≤ chunk_size + chunk_overlap +
          max (count_tokens tok ['\n', '\n']) (count_tokens tok [' ']) := by
    intro pages
    induction pages with
    | nil => intro idx c hc; simp [chunk_document_go] at hc
    | cons pg rest ih =>
      intro idx c hc
      simp only [chunk_document_go, List.mem_append] at hc
      rcases hc with hc | hc
      · exact hpage pg idx c hc
      · exact ih _ c hc
  exact hgo doc.pages 0

/-- In the character tokenizer, concatenation is token-count additive. -/
lemma charTok_cat (a b : Str) :
    count_tokens charTok (a ++ b) ≤ count_tokens charTok a + count_tokens charTok b := by
  simp [count_tokens, charTok]

/-- In the character tokenizer, stripping never increases the token
count. -/
lemma charTok_strip (s : Str) :
    count_tokens charTok (pyStrip s) ≤ count_tokens charTok s := by
  show (pyStrip s).length ≤ s.length
  calc (pyStrip s).length
      = ((s.dropWhile pyWS).reverse.dropWhile pyWS).length := by simp [pyStrip]
    _ ≤ (s.dropWhile pyWS).reverse.length := (List.dropWhile_sublist _).length_le
    _ = (s.dropWhile pyWS).length := by simp
    _ ≤ s.length := (List.dropWhile_sublist _).length_le

/-- In the character tokenizer, decoding a token list counts its length. -/
lemma charTok_dec (l : List Char) :
    count_tokens charTok (charTok.decode l) ≤ l.length :=
  le_refl _

/-- C2 counterexample: with the character tokenizer, chunk_size 5 and
chunk_overlap 3, the demonstration document produces chunks with token
counts 5, 9, 9, so the chunk at index 1 exceeds chunk_size — yet every
paragraph of the page counts at most 5 tokens, so the sentence splitter
and with it the forced token-window split are never reached (a paragraph
only enters _split_large_text when its count exceeds chunk_size).  The
oversized chunk is the buffer seeded with the 3-token overlap tail of the
previous chunk, a blank line and the next 4-token paragraph, refuting the
claim that only forced token-window chunks may exceed chunk_size. -/
theorem chunk_token_budget_counterexample :
    (chunk_document charTok 5 3 demoDoc).map TextChunk.token_count = [5, 9, 9] ∧
    ((split_into_paragraphs demoText).all
      (fun p => decide (count_tokens charTok p ≤ 5))) = true := by
  decide

/-- Witness for the amended C2 bound: the oversized chunk of the
counterexample satisfies the corrected budget
chunk_size + chunk_overlap + separator. -/
theorem chunk_token_budget_bounded_witness :
    0 < 3 ∧
    ((chunk_document charTok 5 3 demoDoc).getD 1 ⟨[], none, 0, 0⟩).token_count ≤
      5 + 3 + max (count_tokens charTok ['\n', '\n']) (count_tokens charTok [' ']) :=
  ⟨by decide,
    chunk_token_budget_bounded charTok 5 3 demoDoc charTok_cat charTok_strip charTok_dec
      (by decide) _ (by decide)⟩

/-- C4 counterexample: in the same run, the chunk at index 1 stores
token_count 9 (the count of the unstripped buffer, which begins with the
space carried in by the overlap tail) while the tokenizer count of its
stored, stripped content is 8 — the stored count and the content
disagree. -/
theorem token_count_content_counterexample :
    (chunk_document charTok 5 3 demoDoc).map
      (fun c => (count_tokens charTok c.content, c.token_count)) =
      [(5, 5), (8, 9), (9, 9)] := by
  decide

/-- Witness for the amended C4 bound at the counterexample chunk: the
content's count 8 is below the stored count 9. -/
theorem token_count_bounds_content_witness :
    count_tokens charTok
        ((chunk_document charTok 5 3 demoDoc).getD 1 ⟨[], none, 0, 0⟩).content ≤
      ((chunk_document charTok 5 3 demoDoc).getD 1 ⟨[], none, 0, 0⟩).token_count :=
  token_count_bounds_content charTok 5 3 demoDoc charTok_strip charTok_dec _ (by decide)

/-- Evaluation of one force-split index step: while the window end stays
short of the token list end, the start advances to i + chunk_size −
chunk_overlap; otherwise it jumps to the end. -/
lemma fsStep_eq (cs co len i : ℤ) :
    fsStep cs co len i = if i + cs < len then i + cs - co else len := by
  unfold fsStep
  by_cases h : i + cs < len
  · have hmin : min (i + cs) len = i + cs := min_eq_left (le_of_lt h)
    simp [hmin, h]
  · have hmin : min (i + cs) len = len := min_eq_right (by omega)
    simp [hmin, h]

/-- Under chunk_overlap < chunk_size, the force-split index iteration
eventually reaches the end of the token list: every non-final step
advances by at least chunk_size − chunk_overlap ≥ 1, so len − i is a
decreasing measure. -/
lemma fsStep_reaches (cs co : ℕ) (hlt : co < cs) (len : ℤ) :
    ∀ (k : ℕ) (i : ℤ), 0 ≤ i → (len - i).toNat ≤ k →
      ∃ n : ℕ, len ≤ (fsStep cs co len)^[n] i := by
  have hcast : (co : ℤ) < cs := by exact_mod_cast hlt
  intro k
  induction k with
  | zero =>
    intro i hi hk
    refine ⟨0, ?_⟩
    simp only [Function.iterate_zero, id_eq]
    omega
  | succ k ih =>
    intro i hi hk
    by_cases hil : len ≤ i
    · exact ⟨0, by simpa using hil⟩
    · by_cases h2 : i + (cs : ℤ) < len
      · have hv : fsStep cs co len i = i + cs - co := by
          rw [fsStep_eq, if_pos h2]
        have h0 : (0 : ℤ) ≤ i + cs - co := by omega
        have hk2 : (len - (i + cs - co)).toNat ≤ k := by omega
        obtain ⟨n, hn⟩ := ih (i + cs - co) h0 hk2
        exact ⟨n + 1, by rwa [Function.iterate_succ_apply, hv]⟩
      · have hv : fsStep cs co len i = len := by
          rw [fsStep_eq, if_neg h2]
        exact ⟨1, by simp [hv]⟩

/-- Under chunk_size ≤ chunk_overlap and a token list longer than
chunk_size, the index iteration never advances past the end: the window
start satisfies i + chunk_size < len forever. -/
lemma fsStep_stuck (cs co : ℕ) (hle : cs ≤ co) (len : ℤ) (hlen : (cs : ℤ) < len) :
    ∀ n : ℕ, (fsStep cs co len)^[n] 0 + cs < len := by
  have hcast : (cs : ℤ) ≤ co := by exact_mod_cast hle
  intro n
  induction n with
  | zero => simpa using hlen
  | succ n ih =>
    rw [Function.iterate_succ_apply']
    have h2 : (fsStep cs co len)^[n] 0 + (cs : ℤ) < len := ih
    have hv : fsStep cs co len ((fsStep cs co len)^[n] 0) =
        (fsStep cs co len)^[n] 0 + cs - co := by
      rw [fsStep_eq, if_pos h2]
    rw [hv]
    omega

/-- C10: the while loop of Chunker._force_split_by_tokens terminates for
every input precisely when chunk_overlap < chunk_size.  Under that
precondition each non-final iteration advances the window start from i to
i + chunk_size − chunk_overlap, and the start reaches the end of the token
list; if instead chunk_overlap ≥ chunk_size and the text encodes to more
than chunk_size tokens, the start never reaches the end and the loop runs
forever. -/
theorem fsStep_termination (chunk_size chunk_overlap len : ℕ) :
    (chunk_overlap < chunk_size → ∀ i : ℤ, 0 ≤ i → i + chunk_size < len →
      fsStep chunk_size chunk_overlap len i = i + chunk_size - chunk_overlap) ∧
    (chunk_overlap < chunk_size →
      ∃ n : ℕ, (len : ℤ) ≤ (fsStep chunk_size chunk_overlap len)^[n] 0) ∧
    (chunk_size ≤ chunk_overlap → chunk_size < len →
      ∀ n : ℕ, (fsStep chunk_size chunk_overlap len)^[n] 0 < (len : ℤ)) := by
  refine ⟨?_, ?_, ?_⟩
  · intro _ i _ h2
    rw [fsStep_eq, if_pos h2]
  · intro h
    exact fsStep_reaches chunk_size chunk_overlap h len len 0 (le_refl 0) (by simp)
  · intro h1 h2 n
    have h3 : (chunk_size : ℤ) < len := by exact_mod_cast h2
    have h4 := fsStep_stuck chunk_size chunk_overlap h1 len h3 n
    omega

/-- Witness for C10: with chunk_size 2 and chunk_overlap 1 the step from 0
advances to 1 and the iteration reaches a 5-token end; with chunk_size 2
and chunk_overlap 2 the iteration is still short of a 3-token end after 5
steps. -/
theorem fsStep_termination_witness :
    (fsStep 2 1 5 0 = 0 + 2 - 1) ∧
    (∃ n : ℕ, (5 : ℤ) ≤ (fsStep 2 1 5)^[n] 0) ∧
    ((fsStep 2 2 3)^[5] 0 < (3 : ℤ)) := by
  refine ⟨?_, ?_, ?_⟩
  · exact_mod_cast (fsStep_termination 2 1 5).1 (by decide) 0 (by decide) (by decide)
  · exact_mod_cast (fsStep_termination 2 1 5).2.1 (by decide)
  · exact_mod_cast (fsStep_termination 2 2 3).2.2 (by decide) (by decide) 5

/-- The correctly indexed batch response for a batch b under an ideal
per-text embedding g: item j carries index j and the embedding of b[j]. -/
def canonItems (g : Str → List ℚ) (b : List Str) : List EmbedItem :=
  b.enum.map (fun q => ⟨q.1, g q.2⟩)

/-- Two lists that are permutations of each other and both strictly sorted
on a ℕ key are equal. -/
lemma perm_pairwise_lt_eq {α : Type} {f : α → ℕ} {l1 l2 : List α}
    (hp : l1.Perm l2) (h1 : l1.Pairwise (fun a b => f a < f b))
    (h2 : l2.Pairwise (fun a b => f a < f b)) : l1 = l2 := by
  haveI : IsAntisymm α (fun a b => f a < f b) :=
    ⟨fun a b hab hba => absurd (hab.trans hba) (lt_irrefl _)⟩
  exact List.eq_of_perm_of_sorted hp h1 h2

/-- The canonical response is strictly sorted on its index field. -/
lemma canon_pairwise (g : Str → List ℚ) (b : List Str) :
    (canonItems g b).Pairwise (fun a b2 => a.index < b2.index) := by
  unfold canonItems
  rw [List.pairwise_map]
  have h2 : (List.map Prod.fst b.enum).Pairwise (· < ·) := by
    rw [show b.enum = List.enumFrom 0 b from rfl, List.enumFrom_map_fst]
    exact List.pairwise_lt_range' 0 b.length
  rw [List.pairwise_map] at h2
  exact h2

/-- The canonical response's index column is 0, 1, …, |b| − 1. -/
lemma canon_map_index (g : Str → List ℚ) (b : List Str) :
    (canonItems g b).map EmbedItem.index = List.range' 0 b.length := by
  unfold canonItems
  rw [List.map_map,
    show (EmbedItem.index ∘ fun q => (⟨q.1, g q.2⟩ : EmbedItem)) = Prod.fst from rfl,
    show b.enum = List.enumFrom 0 b from rfl, List.enumFrom_map_fst]

/-- The canonical response's embedding column is the per-text embeddings in
input order. -/
lemma canon_map_embedding (g : Str → List ℚ) (b : List Str) :
    (canonItems g b).map EmbedItem.embedding = b.map g := by
  unfold canonItems
  rw [List.map_map,
    show (EmbedItem.embedding ∘ fun q => (⟨q.1, g q.2⟩ : EmbedItem)) = g ∘ Prod.snd
      from rfl,
    ← List.map_map, List.enum_map_snd]

/-- Sorting any permutation of the canonical response by the
service-provided index restores the canonical response. -/
lemma sortByIndex_perm_canon (g : Str → List ℚ) (d : List EmbedItem) (b : List Str)
    (hp : d.Perm (canonItems g b)) :
    List.insertionSort (fun a b2 => idxLe a b2 = true) d = canonItems g b := by
  haveI : IsTotal EmbedItem (fun a b2 => idxLe a b2 = true) := ⟨by
    intro a b2
    simp only [idxLe, decide_eq_true_eq]
    omega⟩
  haveI : IsTrans EmbedItem (fun a b2 => idxLe a b2 = true) := ⟨by
    intro a b2 c hab hbc
    simp only [idxLe, decide_eq_true_eq] at *
    omega⟩
  have hperm : (List.insertionSort (fun a b2 => idxLe a b2 = true) d).Perm
      (canonItems g b) :=
    (List.perm_insertionSort (fun a b2 => idxLe a b2 = true) d).trans hp
  have hsorted : (List.insertionSort (fun a b2 => idxLe a b2 = true) d).Pairwise
      (fun a b2 => idxLe a b2 = true) :=
    List.sorted_insertionSort (fun a b2 => idxLe a b2 = true) d
  have hnodup : ((List.insertionSort (fun a b2 => idxLe a b2 = true) d).map
      EmbedItem.index).Nodup := by
    have h1 : ((List.insertionSort (fun a b2 => idxLe a b2 = true) d).map
        EmbedItem.index).Perm ((canonItems g b).map EmbedItem.index) := hperm.map _
    rw [canon_map_index] at h1
    exact h1.nodup_iff.mpr (List.nodup_range' 0 b.length)
  have hne : (List.insertionSort (fun a b2 => idxLe a b2 = true) d).Pairwise
      (fun a b2 => a.index ≠ b2.index) :=
    List.pairwise_map.mp hnodup
  have hlt : (List.insertionSort (fun a b2 => idxLe a b2 = true) d).Pairwise
      (fun a b2 => a.index < b2.index) :=
    (hsorted.and hne).imp (by
      intro a b2 h
      rcases h with ⟨h1, h2⟩
      simp only [idxLe, decide_eq_true_eq] at h1
      omega)
  exact perm_pairwise_lt_eq hperm hlt (canon_pairwise g b)

/-- Rebatching with a positive batch size and mapping over each batch is
mapping over the whole list. -/
lemma toBatches_flatten {α β : Type} (g : α → β) (bs : ℕ) :
    ∀ l : List α, ((toBatches (bs + 1) l).map (List.map g)).flatten = l.map g := by
  suffices hs : ∀ (n : ℕ) (l : List α), l.length = n →
      ((toBatches (bs + 1) l).map (List.map g)).flatten = l.map g by
    intro l
    exact hs l.length l rfl
  intro n
  induction n using Nat.strong_induction_on with
  | _ n ih =>
    intro l hn
    match l with
    | [] => simp [toBatches]
    | x :: xs =>
      by_cases h : (x :: xs).length ≤ bs + 1
      · have h2 : xs.length ≤ bs := by simpa using h
        simp [toBatches, h2]
      · have h2 : ¬xs.length ≤ bs := by simpa using h
        have he : toBatches (bs + 1) (x :: xs) =
            (x :: xs).take (bs + 1) :: toBatches (bs + 1) ((x :: xs).drop (bs + 1)) := by
          rw [toBatches]
          simp [h2]
        rw [he]
        simp only [List.map_cons, List.flatten_cons]
        have hlen : ((x :: xs).drop (bs + 1)).length < n := by
          subst hn
          simp only [List.length_drop, List.length_cons]
          omega
        rw [ih _ hlen _ rfl, ← List.map_append, List.take_append_drop, List.map_cons]

/-- C5: Embedder.embed_texts returns the empty list for empty input
(texts.map g is [] there) and, whenever every batch response is some
permutation of the correctly indexed response, returns exactly one
embedding per input text, index-aligned to the input order, because each
batch is re-sorted by the service-provided index before reassembly. -/
theorem embed_texts_index_aligned (svc : List Str → List EmbedItem) (g : Str → List ℚ)
    (hsvc : ∀ b : List Str, (svc b).Perm (canonItems g b)) (texts : List Str) :
    embed_texts svc texts = texts.map g := by
  unfold embed_texts
  by_cases h : texts.isEmpty
  · have h0 : texts = [] := List.isEmpty_iff.mp h
    subst h0
    simp
  · simp only [if_neg h]
    have hcongr : (toBatches MAX_BATCH_SIZE texts).map
        (fun batch =>
          (List.insertionSort (fun a b => idxLe a b = true) (svc batch)).map
            EmbedItem.embedding) =
        (toBatches MAX_BATCH_SIZE texts).map (List.map g) := by
      refine List.map_congr_left ?_
      intro b _
      rw [sortByIndex_perm_canon g (svc b) b (hsvc b), canon_map_embedding]
    rw [hcongr, show MAX_BATCH_SIZE = 2047 + 1 from rfl, toBatches_flatten]

/-- The ideal embedding used in the C5 witness: a text maps to the
one-entry vector of its length. -/
def demoG : Str → List ℚ :=
  fun s => [(s.length : ℚ)]

/-- A service whose batch responses come back in reversed (permuted)
order. -/
def demoSvc : List Str → List EmbedItem :=
  fun b => (canonItems demoG b).reverse

/-- Three texts for the C5 witness. -/
def demoTexts : List Str :=
  [ "aa".data, "b".data, "ccc".data]

/-- Witness for C5: the reversing service still yields the embeddings
aligned to input order, and its raw response really is permuted. -/
theorem embed_texts_index_aligned_witness :
    embed_texts demoSvc demoTexts = demoTexts.map demoG ∧
    demoSvc demoTexts ≠ canonItems demoG demoTexts :=
  ⟨embed_texts_index_aligned demoSvc demoG
      (fun b => (canonItems demoG b).reverse_perm) demoTexts,
    by decide⟩

/-- Members of a dict assignment are the assigned pair or members of the
original dict. -/
lemma insertOverwrite_mem {k : ℕ} {v kv : Nat × RetrievedChunk} :
    ∀ l : List (Nat × RetrievedChunk), kv ∈ insertOverwrite k v.2 l →
      kv = (k, v.2) ∨ kv ∈ l := by
  intro l
  induction l with
  | nil =>
    intro h
    simp only [insertOverwrite, List.mem_singleton] at h
    exact Or.inl h
  | cons q rest ih =>
    obtain ⟨k2, v2⟩ := q
    intro h
    simp only [insertOverwrite] at h
    by_cases hk : k2 = k
    · rw [if_pos hk] at h
      rcases List.mem_cons.mp h with h2 | h2
      · exact Or.inl h2
      · exact Or.inr (List.mem_cons_of_mem _ h2)
    · rw [if_neg hk] at h
      rcases List.mem_cons.mp h with h2 | h2
      · exact Or.inr (h2 ▸ List.mem_cons_self _ _)
      · rcases ih h2 with h3 | h3
        · exact Or.inl h3
        · exact Or.inr (List.mem_cons_of_mem _ h3)

/-- Members of a guarded insertion are the inserted pair or members of the
original dict. -/
lemma insertIfAbsent_mem {k : ℕ} {v : RetrievedChunk} {kv : Nat × RetrievedChunk}
    {l : List (Nat × RetrievedChunk)} (h : kv ∈ insertIfAbsent k v l) :
    kv = (k, v) ∨ kv ∈ l := by
  unfold insertIfAbsent at h
  split at h
  · exact Or.inr h
  · rcases List.mem_append.mp h with h2 | h2
    · exact Or.inr h2
    · simp only [List.mem_singleton] at h2
      exact Or.inl h2

/-- The neighbour-window fold preserves any property that holds of the
accumulated values and of every context chunk built from p. -/
lemma window_fold_pres (p : RetrievedChunk) (P : RetrievedChunk → Prop)
    (hP : ∀ c : StoredChunk, P (ctxChunkOf p c)) :
    ∀ (ws : List StoredChunk) (acc : List (Nat × RetrievedChunk)),
      (∀ kv ∈ acc, P kv.2) →
      ∀ kv ∈ ws.foldl (fun a c => insertIfAbsent c.id (ctxChunkOf p c) a) acc, P kv.2 := by
  intro ws
  induction ws with
  | nil => intro acc hacc kv h; exact hacc kv h
  | cons c rest ih =>
    intro acc hacc kv h
    simp only [List.foldl_cons] at h
    refine ih _ ?_ kv h
    intro kv2 h2
    rcases insertIfAbsent_mem h2 with h3 | h3
    · rw [h3]
      exact hP c
    · exact hacc kv2 h3

/-- addContextFor preserves any property that holds of the accumulated
values, of the primary chunk, and of every context chunk built from it. -/
lemma addContextFor_pres (docChunks : Nat → List StoredChunk) (ctx : ℕ)
    (P : RetrievedChunk → Prop) (p : RetrievedChunk) (hp : P p)
    (hP : ∀ c : StoredChunk, P (ctxChunkOf p c)) :
    ∀ acc : List (Nat × RetrievedChunk), (∀ kv ∈ acc, P kv.2) →
      ∀ kv ∈ addContextFor docChunks ctx p acc, P kv.2 := by
  intro acc hacc kv h
  have hacc1 : ∀ kv2 ∈ insertOverwrite p.chunk_id p acc, P kv2.2 := by
    intro kv2 h2
    rcases insertOverwrite_mem (v := (p.chunk_id, p)) _ h2 with h3 | h3
    · rw [h3]
      exact hp
    · exact hacc kv2 h3
  simp only [addContextFor] at h
  split at h
  · exact hacc1 kv h
  · exact window_fold_pres p P hP _ _ hacc1 kv h

/-- Every value in the dict built by the primary loop is a primary chunk
itself or carries the synthetic score and the filename of some primary
chunk. -/
lemma primary_fold_values (docChunks : Nat → List StoredChunk) (ctx : ℕ)
    (primary : List RetrievedChunk) :
    ∀ (l : List RetrievedChunk), (∀ p ∈ l, p ∈ primary) →
      ∀ (acc : List (Nat × RetrievedChunk)),
        (∀ kv ∈ acc, kv.2 ∈ primary ∨ ∃ p ∈ primary,
          kv.2.score = p.score * (9 / 10) ∧ kv.2.filename = p.filename) →
        ∀ kv ∈ l.foldl (fun a p => addContextFor docChunks ctx p a) acc,
          kv.2 ∈ primary ∨ ∃ p ∈ primary,
            kv.2.score = p.score * (9 / 10) ∧ kv.2.filename = p.filename := by
  intro l
  induction l with
  | nil => intro _ acc hacc kv h; exact hacc kv h
  | cons p rest ih =>
    intro hl acc hacc kv h
    simp only [List.foldl_cons] at h
    refine ih (fun q hq => hl q (List.mem_cons_of_mem _ hq)) _ ?_ kv h
    intro kv2 h2
    refine addContextFor_pres docChunks ctx
      (fun v => v ∈ primary ∨ ∃ q ∈ primary,
        v.score = q.score * (9 / 10) ∧ v.filename = q.filename) p
      (Or.inl (hl p (List.mem_cons_self _ _))) ?_ acc hacc kv2 h2
    intro c
    exact Or.inr ⟨p, hl p (List.mem_cons_self _ _), rfl, rfl⟩

/-- The final ordering key of retrieve_with_context is transitive. -/
lemma ctxKeyLe_trans (a b c : RetrievedChunk)
    (h1 : ctxKeyLe a b = true) (h2 : ctxKeyLe b c = true) : ctxKeyLe a c = true := by
  simp only [ctxKeyLe, Bool.or_eq_true, Bool.and_eq_true, decide_eq_true_eq] at h1 h2 ⊢
  rcases h1 with h1 | ⟨e1, h1⟩ <;> rcases h2 with h2 | ⟨e2, h2⟩
  · exact Or.inl (h1.trans h2)
  · exact Or.inl (lt_of_lt_of_eq h1 e2)
  · exact Or.inl (lt_of_eq_of_lt e1 h2)
  · refine Or.inr ⟨e1.trans e2, ?_⟩
    rcases h1 with h1 | ⟨f1, h1⟩ <;> rcases h2 with h2 | ⟨f2, h2⟩
    · exact Or.inl (h1.trans h2)
    · exact Or.inl (lt_of_lt_of_eq h1 f2)
    · exact Or.inl (lt_of_eq_of_lt f1 h2)
    · exact Or.inr ⟨f1.trans f2, h1.trans h2⟩

/-- The final ordering key of retrieve_with_context is total. -/
lemma ctxKeyLe_total (a b : RetrievedChunk) :
    (ctxKeyLe a b || ctxKeyLe b a) = true := by
  simp only [ctxKeyLe, Bool.or_eq_true, Bool.and_eq_true, decide_eq_true_eq]
  rcases Nat.lt_trichotomy a.document_id b.document_id with h | h | h
  · exact Or.inl (Or.inl h)
  · rcases Nat.lt_trichotomy (pageKey a) (pageKey b) with h2 | h2 | h2
    · exact Or.inl (Or.inr ⟨h, Or.inl h2⟩)
    · rcases le_total a.score b.score with h3 | h3
      · exact Or.inl (Or.inr ⟨h, Or.inr ⟨h2, h3⟩⟩)
      · exact Or.inr (Or.inr ⟨h.symm, Or.inr ⟨h2.symm, h3⟩⟩)
    · exact Or.inr (Or.inr ⟨h.symm, Or.inl h2⟩)
  · exact Or.inr (Or.inl h)

/-- C6: retrieve_with_context returns the primary list unchanged when it is
empty or context_chunks is zero; every chunk of the result is a primary
chunk or carries the synthetic score primary score × 0.9 (never a vector
store value) together with the filename of a triggering primary chunk; and
when expansion runs, the merged result is sorted ascending by
(document id, page number or zero, score). -/
theorem retrieve_with_context_spec (docFilename : Nat → Option Str)
    (docChunks : Nat → List StoredChunk) (searchResults : List (StoredChunk × ℚ))
    (context_chunks : ℕ) :
    (retrieve docFilename searchResults 0 = [] ∨ context_chunks = 0 →
      retrieve_with_context docFilename docChunks searchResults context_chunks =
        retrieve docFilename searchResults 0) ∧
    (∀ c ∈ retrieve_with_context docFilename docChunks searchResults context_chunks,
      c ∈ retrieve docFilename searchResults 0 ∨
        ∃ p ∈ retrieve docFilename searchResults 0,
          c.score = p.score * (9 / 10) ∧ c.filename = p.filename) ∧
    (retrieve docFilename searchResults 0 ≠ [] → context_chunks ≠ 0 →
      (retrieve_with_context docFilename docChunks searchResults context_chunks).Pairwise
        (fun a b => ctxKeyLe a b = true)) := by
  refine ⟨?_, ?_, ?_⟩
  · intro h
    unfold retrieve_with_context
    have hg : (retrieve docFilename searchResults 0).isEmpty || context_chunks = 0 := by
      rcases h with h | h
      · simp [h]
      · simp [h]
    simp only [hg, if_pos]
  · intro c hc
    unfold retrieve_with_context at hc
    by_cases hg : (retrieve docFilename searchResults 0).isEmpty ∨ context_chunks = 0
    · rw [if_pos (by simpa using hg)] at hc
      exact Or.inl hc
    · rw [if_neg (by simpa using hg)] at hc
      unfold contextMerge at hc
      have hc2 := (List.perm_insertionSort (fun a b => ctxKeyLe a b = true) _).mem_iff.mp hc
      rcases List.mem_map.mp hc2 with ⟨kv, hkv, rfl⟩
      exact primary_fold_values docChunks context_chunks _ _ (fun p hp => hp) []
        (by intro kv2 h2; simp at h2) kv hkv
  · intro h1 h2
    unfold retrieve_with_context
    rw [if_neg (by simpa using And.intro (by simpa [List.isEmpty_iff] using h1) h2)]
    haveI : IsTotal RetrievedChunk (fun a b => ctxKeyLe a b = true) := ⟨by
      intro a b
      have h := ctxKeyLe_total a b
      simp only [Bool.or_eq_true] at h
      exact h⟩
    haveI : IsTrans RetrievedChunk (fun a b => ctxKeyLe a b = true) :=
      ⟨ctxKeyLe_trans⟩
    exact List.sorted_insertionSort (fun a b => ctxKeyLe a b = true) _

/-- The filename resolved for the demonstration document. -/
def demoFilename : Str := "f.pdf".data

/-- Filename map of the retrieval demonstration: document 1 exists. -/
def demoDF : Nat → Option Str :=
  fun d => if d = 1 then some demoFilename else none

/-- The persisted chunk list of document 1 in the retrieval
demonstration. -/
def demoStoredChunks : List StoredChunk :=
  [⟨10, 1, "one".data, some 1, 0⟩, ⟨11, 1, "two".data, some 1, 1⟩,
    ⟨12, 1, "three".data, some 2, 2⟩]

/-- Chunk-list map of the retrieval demonstration. -/
def demoDC : Nat → List StoredChunk :=
  fun d => if d = 1 then demoStoredChunks else []

/-- One similarity hit on the middle chunk of document 1. -/
def demoSearch : List (StoredChunk × ℚ) :=
  [(⟨11, 1, "two".data, some 1, 1⟩, 4 / 5)]

/-- The context chunk the demonstration adds for the left neighbour. -/
def demoCtxChunk : RetrievedChunk :=
  ⟨10, 1, demoFilename, "one".data, some 1, 4 / 5 * (9 / 10)⟩

/-- Witness for C6 at the demonstration inputs: with context_chunks 0 the
primary list is returned unchanged; the added neighbour chunk carries the
synthetic score and the primary's filename; and the expanded result is
sorted by the (document, page, score) key. -/
theorem retrieve_with_context_spec_witness :
    (retrieve_with_context demoDF demoDC demoSearch 0 = retrieve demoDF demoSearch 0) ∧
    (demoCtxChunk ∈ retrieve demoDF demoSearch 0 ∨
      ∃ p ∈ retrieve demoDF demoSearch 0,
        demoCtxChunk.score = p.score * (9 / 10) ∧ demoCtxChunk.filename = p.filename) ∧
    (retrieve_with_context demoDF demoDC demoSearch 1).Pairwise
      (fun a b => ctxKeyLe a b = true) :=
  ⟨(retrieve_with_context_spec demoDF demoDC demoSearch 0).1 (Or.inr rfl),
    (retrieve_with_context_spec demoDF demoDC demoSearch 1).2.1 demoCtxChunk (by decide),
    (retrieve_with_context_spec demoDF demoDC demoSearch 1).2.2 (by decide) (by decide)⟩

/-- The deduplication predicate of _build_sources as a find? test: does a
chunk carry the given (document id, page number) pair. -/
def sameKey (k : Nat × Option Nat) (c : RetrievedChunk) : Bool :=
  decide ((c.document_id, c.page_number) = k)

/-- Every source the deduplication loop emits has a key outside seen and
is built from the first remaining chunk carrying its key. -/
lemma dedupGo_mem :
    ∀ (chunks : List RetrievedChunk) (seen : List (Nat × Option Nat)),
      ∀ s ∈ dedupGo chunks seen,
        (s.document_id, s.page_number) ∉ seen ∧
        ∃ c, chunks.find? (sameKey (s.document_id, s.page_number)) = some c ∧
          s = mkSource c := by
  intro chunks
  induction chunks with
  | nil => intro seen s h; simp [dedupGo] at h
  | cons c rest ih =>
    intro seen s h
    simp only [dedupGo] at h
    split at h
    · rename_i hin
      obtain ⟨hnot, c0, hfind, hs⟩ := ih _ s h
      refine ⟨hnot, c0, ?_, hs⟩
      have hpc : ¬sameKey (s.document_id, s.page_number) c = true := by
        simp only [sameKey, decide_eq_true_eq]
        intro he
        exact hnot (he ▸ hin)
      rw [List.find?_cons_of_neg _ hpc]
      exact hfind
    · rename_i hnin
      rcases List.mem_cons.mp h with rfl | h2
      · refine ⟨hnin, c, ?_, rfl⟩
        have hpc : sameKey ((mkSource c).document_id, (mkSource c).page_number) c = true := by
          simp [sameKey, mkSource]
        rw [List.find?_cons_of_pos _ hpc]
      · obtain ⟨hnot, c0, hfind, hs⟩ := ih _ s h2
        have hpc : ¬sameKey (s.document_id, s.page_number) c = true := by
          simp only [sameKey, decide_eq_true_eq]
          intro he
          exact hnot (List.mem_cons.mpr (Or.inl he.symm))
        refine ⟨fun hmem => hnot (List.mem_cons_of_mem _ hmem), c0, ?_, hs⟩
        rw [List.find?_cons_of_neg _ hpc]
        exact hfind

/-- The deduplication loop emits pairwise distinct keys. -/
lemma dedupGo_keys_pairwise :
    ∀ (chunks : List RetrievedChunk) (seen : List (Nat × Option Nat)),
      (dedupGo chunks seen).Pairwise
        (fun a b => (a.document_id, a.page_number) ≠ (b.document_id, b.page_number)) := by
  intro chunks
  induction chunks with
  | nil => intro seen; simp [dedupGo]
  | cons c rest ih =>
    intro seen
    simp only [dedupGo]
    split
    · exact ih seen
    · refine List.Pairwise.cons ?_ (ih _)
      intro s hs he
      have h1 := (dedupGo_mem rest _ s hs).1
      apply h1
      refine List.mem_cons.mpr (Or.inl ?_)
      simp only [mkSource] at he
      exact he.symm

/-- The descending score order of _build_sources is transitive. -/
lemma scoreDescLe_trans (a b c : Source)
    (h1 : scoreDescLe a b = true) (h2 : scoreDescLe b c = true) :
    scoreDescLe a c = true := by
  simp only [scoreDescLe, decide_eq_true_eq] at h1 h2 ⊢
  exact h2.trans h1

/-- The descending score order of _build_sources is total. -/
lemma scoreDescLe_total (a b : Source) : (scoreDescLe a b || scoreDescLe b a) = true := by
  simp only [scoreDescLe, Bool.or_eq_true, decide_eq_true_eq]
  exact (le_total b.score a.score)

/-- C7: in the source list built by RAGService._build_sources, no two
sources share (document id, page number); each source is built from the
first chunk carrying its key (first occurrence wins); every excerpt has at
most 500 characters; and the list is sorted by score descending. -/
theorem build_sources_spec (chunks : List RetrievedChunk) :
    (build_sources chunks).Pairwise
      (fun a b => (a.document_id, a.page_number) ≠ (b.document_id, b.page_number)) ∧
    (∀ s ∈ build_sources chunks,
      ∃ c, chunks.find? (sameKey (s.document_id, s.page_number)) = some c ∧
        s = mkSource c) ∧
    (∀ s ∈ build_sources chunks, s.chunk_content.length ≤ 500) ∧
    (build_sources chunks).Pairwise (fun a b => b.score ≤ a.score) := by
  have hperm : (build_sources chunks).Perm (dedupGo chunks []) :=
    List.perm_insertionSort (fun a b => scoreDescLe a b = true) (dedupGo chunks [])
  have hmem : ∀ s ∈ build_sources chunks, s ∈ dedupGo chunks [] := by
    intro s hs
    exact hperm.mem_iff.mp hs
  refine ⟨?_, ?_, ?_, ?_⟩
  · have hsym : ∀ {x y : Source},
        (x.document_id, x.page_number) ≠ (y.document_id, y.page_number) →
        (y.document_id, y.page_number) ≠ (x.document_id, x.page_number) :=
      fun h => h.symm
    exact (List.Perm.pairwise_iff hsym hperm).mpr (dedupGo_keys_pairwise chunks [])
  · intro s hs
    exact (dedupGo_mem chunks [] s (hmem s hs)).2
  · intro s hs
    obtain ⟨c, _, rfl⟩ := (dedupGo_mem chunks [] s (hmem s hs)).2
    show (c.content.take 500).length ≤ 500
    exact List.length_take_le 500 c.content
  · haveI : IsTotal Source (fun a b => scoreDescLe a b = true) := ⟨by
      intro a b
      have h := scoreDescLe_total a b
      simp only [Bool.or_eq_true] at h
      exact h⟩
    haveI : IsTrans Source (fun a b => scoreDescLe a b = true) :=
      ⟨scoreDescLe_trans⟩
    have hsorted := List.sorted_insertionSort (fun a b => scoreDescLe a b = true)
      (dedupGo chunks [])
    exact hsorted.imp (by
      intro a b h
      simpa [scoreDescLe] using h)

/-- Chunks for the C7 witness: two share the key (1, page 1), the third is
on another document and scores between them. -/
def demoRC : List RetrievedChunk :=
  [⟨1, 1, demoFilename, "aaa".data, some 1, 1 / 2⟩,
    ⟨2, 1, demoFilename, "bbb".data, some 1, 9 / 10⟩,
    ⟨3, 2, demoFilename, "ccc".data, some 2, 3 / 4⟩]

/-- Witness for C7 at the demonstration chunks: pairwise distinct keys,
first-occurrence provenance of the top source, the 500-character excerpt
bound for it, and the descending order. -/
theorem build_sources_spec_witness :
    (build_sources demoRC).Pairwise
      (fun a b => (a.document_id, a.page_number) ≠ (b.document_id, b.page_number)) ∧
    (∃ c, demoRC.find? (sameKey (2, some 2)) = some c ∧
      mkSource ⟨3, 2, demoFilename, "ccc".data, some 2, 3 / 4⟩ = mkSource c) ∧
    (mkSource ⟨3, 2, demoFilename, "ccc".data, some 2, 3 / 4⟩).chunk_content.length ≤ 500 ∧
    (build_sources demoRC).Pairwise (fun a b => b.score ≤ a.score) :=
  ⟨(build_sources_spec demoRC).1,
    (build_sources_spec demoRC).2.1 (mkSource ⟨3, 2, demoFilename, "ccc".data, some 2, 3 / 4⟩)
      (by decide),
    (build_sources_spec demoRC).2.2.1
      (mkSource ⟨3, 2, demoFilename, "ccc".data, some 2, 3 / 4⟩) (by decide),
    (build_sources_spec demoRC).2.2.2⟩

/-- When every search hit scores below the threshold, retrieve filters all
of them out. -/
lemma retrieve_all_below (docFilename : Nat → Option Str)
    (searchResults : List (StoredChunk × ℚ)) (m : ℚ)
    (h : ∀ r ∈ searchResults, r.2 < m) :
    retrieve docFilename searchResults m = [] := by
  unfold retrieve
  rw [List.filterMap_eq_nil_iff]
  intro r hr
  rw [if_pos (h r hr)]

/-- C8 (amended): whenever the configured retrieval returns no chunks,
RAGService.query returns the fixed no-information answer with an empty
source list and does not invoke the generation service; with
include_context disabled, this in particular happens whenever every search
hit scores below min_score.  (The context-expanded default path passes no
min_score to the retriever, so there low-scoring chunks still reach
generation — see the counterexample.) -/
theorem rag_query_empty_fixed_answer (cfg : RAGConfig) (docFilename : Nat → Option Str)
    (docChunks : Nat → List StoredChunk) (searchResults : List (StoredChunk × ℚ))
    (gen : Str → Str → Str) (question : Str) :
    ((if cfg.include_context then
        retrieve_with_context docFilename docChunks searchResults cfg.context_chunks
      else retrieve docFilename searchResults cfg.min_score) = [] →
      rag_query cfg docFilename docChunks searchResults gen question =
        ⟨noInfoAnswer, [], false⟩) ∧
    (cfg.include_context = false → (∀ r ∈ searchResults, r.2 < cfg.min_score) →
      rag_query cfg docFilename docChunks searchResults gen question =
        ⟨noInfoAnswer, [], false⟩) := by
  constructor
  · intro h
    unfold rag_query
    rw [h]
    rfl
  · intro hic h
    unfold rag_query
    rw [hic]
    simp only [Bool.false_eq_true, if_false]
    rw [retrieve_all_below docFilename searchResults cfg.min_score h]
    rfl

/-- The default RAG configuration of services/rag.py. -/
def demoCfg : RAGConfig := {}

/-- The same configuration with context expansion disabled. -/
def demoCfgNoCtx : RAGConfig := ⟨5, false, 1, 3 / 10⟩

/-- One search hit scoring 1/5, strictly below the configured min_score of
3/10. -/
def demoLowSearch : List (StoredChunk × ℚ) :=
  [(⟨11, 1, "two".data, some 1, 1⟩, 1 / 5)]

/-- A generation service returning a fixed non-trivial answer. -/
def demoGen : Str → Str → Str :=
  fun _ _ => "GEN".data

/-- The demonstration question. -/
def demoQuestion : Str := "Frage".data

/-- C8 counterexample: under the default configuration (context expansion
on, min_score 3/10), a question whose only search hit scores 1/5 — below
min_score — still invokes the generation service and returns its answer
with a non-empty source list, because retrieve_with_context calls retrieve
without a min_score and the retriever's 0.0 default keeps the chunk.  This
refutes the claim that zero chunks above min_score always yield the fixed
no-information answer with empty sources and no generation call. -/
theorem rag_query_min_score_counterexample :
    (demoLowSearch.all (fun r => decide (r.2 < demoCfg.min_score))) = true ∧
    (rag_query demoCfg demoDF demoDC demoLowSearch demoGen demoQuestion).gen_called =
      true ∧
    (rag_query demoCfg demoDF demoDC demoLowSearch demoGen demoQuestion).sources ≠ [] ∧
    (rag_query demoCfg demoDF demoDC demoLowSearch demoGen demoQuestion).answer ≠
      noInfoAnswer := by
  decide

/-- Witness for the amended C8: with context expansion disabled, the same
below-threshold hit yields the fixed no-information answer, no sources and
no generation call. -/
theorem rag_query_empty_fixed_answer_witness :
    rag_query demoCfgNoCtx demoDF demoDC demoLowSearch demoGen demoQuestion =
      ⟨noInfoAnswer, [], false⟩ :=
  (rag_query_empty_fixed_answer demoCfgNoCtx demoDF demoDC demoLowSearch demoGen
    demoQuestion).2 (by decide) (by decide)

/-- A classification error always wraps an underlying client error in the
ClassificationError message. -/
lemma classify_error {client : Except Str Str} {text m : Str}
    (h : classify client text = .error m) :
    ∃ e0, client = .error e0 ∧ m = "Failed to classify document: ".data ++ e0 := by
  unfold classify at h
  split at h
  · simp at h
  · split at h
    · simp at h
    · rename_i e0
      simp only [Except.error.injEq] at h
      exact ⟨e0, rfl, h.symm⟩

/-- An embedding error always wraps an underlying client error in the
EmbeddingError message. -/
lemma embed_chunks_model_error {client : Except Str Unit}
    {svc : List Str → List EmbedItem} {chunks : List TextChunk} {m : Str}
    (h : embed_chunks_model client svc chunks = .error m) :
    ∃ e0, client = .error e0 ∧ m = "Failed to generate embeddings: ".data ++ e0 := by
  unfold embed_chunks_model at h
  split at h
  · rename_i e0
    simp only [Except.error.injEq] at h
    exact ⟨e0, rfl, h.symm⟩
  · simp at h

/-- Any exception escaping the try-block body is tagged with the
collaborator that failed and wraps that collaborator's error; the parse
stage never fails inside the body. -/
lemma ingest_body_cause {τ : Type} (tok : Tokenizer τ) (chunk_size chunk_overlap : ℕ)
    (env : PipelineEnv) (document_type : DocumentType) (auto_extract : Bool)
    (parsed : ParsedDocument) :
    ∀ e, ingest_body tok chunk_size chunk_overlap env document_type auto_extract parsed =
        .error e →
      (match e with
       | .pdfParser _ => False
       | .classifier m => document_type = .unknown ∧
           ∃ e0, env.classify_client = .error e0 ∧
             m = "Failed to classify document: ".data ++ e0
       | .embedding m =>
           ∃ e0, env.embed_client = .error e0 ∧
             m = "Failed to generate embeddings: ".data ++ e0
       | .db m => env.persist_result = .error m) := by
  intro e he
  unfold ingest_body at he
  split at he
  · rename_i hty
    cases hcls : classify env.classify_client (full_text parsed) with
    | error m =>
      rw [hcls] at he
      simp only [Except.error.injEq] at he
      subst he
      exact ⟨hty, classify_error hcls⟩
    | ok t =>
      rw [hcls] at he
      simp only [] at he
      by_cases hch : (chunk_document tok chunk_size chunk_overlap parsed).isEmpty
      · rw [if_pos hch] at he
        exact absurd he (by simp)
      · rw [if_neg hch] at he
        cases hemb : embed_chunks_model env.embed_client env.embed_svc
            (chunk_document tok chunk_size chunk_overlap parsed) with
        | error m =>
          rw [hemb] at he
          simp only [Except.error.injEq] at he
          subst he
          exact embed_chunks_model_error hemb
        | ok v =>
          rw [hemb] at he
          simp only [] at he
          cases hdb : env.persist_result with
          | error m =>
            rw [hdb] at he
            simp only [Except.error.injEq] at he
            subst he
            exact rfl
          | ok u =>
            rw [hdb] at he
            simp at he
  · rename_i hty
    simp only [] at he
    by_cases hch : (chunk_document tok chunk_size chunk_overlap parsed).isEmpty
    · rw [if_pos hch] at he
      exact absurd he (by simp)
    · rw [if_neg hch] at he
      cases hemb : embed_chunks_model env.embed_client env.embed_svc
          (chunk_document tok chunk_size chunk_overlap parsed) with
      | error m =>
        rw [hemb] at he
        simp only [Except.error.injEq] at he
        subst he
        exact embed_chunks_model_error hemb
      | ok v =>
        rw [hemb] at he
        simp only [] at he
        cases hdb : env.persist_result with
        | error m =>
          rw [hdb] at he
          simp only [Except.error.injEq] at he
          subst he
          exact rfl
        | ok u =>
          rw [hdb] at he
          simp at he

/-- C1: whenever ingestion (ingest_file or ingest_bytes, both instances of
`ingest`) ends in a raised IngestionError, the document's status is failed
in the same outcome — the code updates the status in the except handler
before re-raising — and the raised error names the offending stage and the
underlying error: its cause (the exception preserved by raise … from e) is
tagged with the collaborator that failed and carries that collaborator's
wrapped message, and the top-level message embeds it, with parse failures
additionally distinguished by the "Failed to parse PDF" prefix. -/
theorem ingest_error_sets_failed {τ : Type} (tok : Tokenizer τ)
    (chunk_size chunk_overlap : ℕ) (env : PipelineEnv) (document_type : DocumentType)
    (auto_extract : Bool) :
    ∀ e, (ingest tok chunk_size chunk_overlap env document_type auto_extract).result =
        .error e →
      (ingest tok chunk_size chunk_overlap env document_type auto_extract).status =
        .failed ∧
      e.message = (match e.cause with
        | .pdfParser m => "Failed to parse PDF: ".data ++ m
        | c => "Ingestion failed: ".data ++ pipeExcMsg c) ∧
      (match e.cause with
        | .pdfParser m => env.parse_result = .error m
        | .classifier m => document_type = .unknown ∧
            ∃ e0, env.classify_client = .error e0 ∧
              m = "Failed to classify document: ".data ++ e0
        | .embedding m =>
            ∃ e0, env.embed_client = .error e0 ∧
              m = "Failed to generate embeddings: ".data ++ e0
        | .db m => env.persist_result = .error m) := by
  intro e he
  unfold ingest at he ⊢
  split at he
  · rename_i m hp
    simp only [Except.error.injEq] at he
    subst he
    exact ⟨rfl, rfl, hp⟩
  · rename_i parsed hp
    cases hb : ingest_body tok chunk_size chunk_overlap env document_type auto_extract
        parsed with
    | ok v =>
      rw [hb] at he
      simp at he
    | error e1 =>
      rw [hb] at he
      have hcause := ingest_body_cause tok chunk_size chunk_overlap env document_type
        auto_extract parsed e1 hb
      cases e1 with
      | pdfParser m => exact (hcause : False).elim
      | classifier m =>
        simp only [Except.error.injEq] at he
        subst he
        exact ⟨rfl, rfl, hcause⟩
      | embedding m =>
        simp only [Except.error.injEq] at he
        subst he
        exact ⟨rfl, rfl, hcause⟩
      | db m =>
        simp only [Except.error.injEq] at he
        subst he
        exact ⟨rfl, rfl, hcause⟩

/-- The underlying collaborator error used in the C1 and C9 witnesses. -/
def demoBoom : Str := "boom".data

/-- A pipeline run whose classification client fails. -/
def demoFailEnv : PipelineEnv :=
  ⟨.ok demoDoc, .error demoBoom, .ok (), fun _ => [], .ok (), .ok demoBoom⟩

/-- The IngestionError that run raises. -/
def demoIngestErr : IngestionError :=
  ⟨ "Ingestion failed: Failed to classify document: ".data ++ demoBoom,
    .classifier ( "Failed to classify document: ".data ++ demoBoom)⟩

/-- Witness for C1: the failing-classification run ends with the document
failed, and the raised error's message embeds the stage-tagged cause. -/
theorem ingest_error_sets_failed_witness :
    (ingest charTok 5 3 demoFailEnv DocumentType.unknown true).status =
      ProcessingStatus.failed ∧
    demoIngestErr.message =
      "Ingestion failed: ".data ++ pipeExcMsg demoIngestErr.cause :=
  ⟨(ingest_error_sets_failed charTok 5 3 demoFailEnv .unknown true demoIngestErr rfl).1,
    (ingest_error_sets_failed charTok 5 3 demoFailEnv .unknown true demoIngestErr rfl).2.1⟩

/-- C9: extract_document never mutates any document row — in particular no
Document.status — for any state, document id and force flag; and whenever
the extraction path is reached (no early return) and the extractor fails,
it returns the unchanged state with a null result instead of raising. -/
theorem extract_document_frame (extractor : Str → DocumentType → Except Str (Str × ℚ))
    (s : DbState) (document_id : ℕ) (force : Bool) :
    ((extract_document extractor s document_id force).1.documents = s.documents) ∧
    (∀ doc : DocRecord,
      (s.extracted.lookup document_id = none ∨ force = true) →
      s.documents.lookup document_id = some doc →
      doc.document_type ≠ .unknown →
      ∀ m, extractor (reconstruct_text doc) doc.document_type = .error m →
        extract_document extractor s document_id force = (s, none)) := by
  constructor
  · unfold extract_document
    cases s.extracted.lookup document_id with
    | some ex =>
      cases force with
      | false => rfl
      | true =>
        cases s.documents.lookup document_id with
        | none => rfl
        | some doc =>
          split
          · rfl
          · split
            · rfl
            · split
              · rfl
              · rfl
    | none =>
      cases force with
      | false =>
        cases s.documents.lookup document_id with
        | none => rfl
        | some doc =>
          split
          · rfl
          · split
            · rfl
            · split
              · rfl
              · rfl
      | true =>
        cases s.documents.lookup document_id with
        | none => rfl
        | some doc =>
          split
          · rfl
          · split
            · rfl
            · split
              · rfl
              · rfl
  · intro doc hex hdoc hty m hm
    cases hex2 : s.extracted.lookup document_id with
    | some ex =>
      have hforce : force = true := by
        rcases hex with h | h
        · rw [hex2] at h
          exact absurd h (by simp)
        · exact h
      subst hforce
      unfold extract_document
      rw [hex2]
      simp [hdoc, hty, hm]
    | none =>
      unfold extract_document
      rw [hex2]
      cases force <;> simp [hdoc, hty, hm]

/-- The document row used in the C9 witness. -/
def demoDocRec : DocRecord := ⟨.completed, .mietvertrag, demoStoredChunks⟩

/-- A one-document state with no extracted rows. -/
def demoDb : DbState := ⟨[(1, demoDocRec)], []⟩

/-- An extractor that always fails. -/
def demoExtractor : Str → DocumentType → Except Str (Str × ℚ) :=
  fun _ _ => .error demoBoom

/-- Witness for C9: a forced re-extraction whose extractor fails leaves the
document rows untouched and returns the unchanged state with a null
result. -/
theorem extract_document_frame_witness :
    (extract_document demoExtractor demoDb 1 true).1.documents = demoDb.documents ∧
    extract_document demoExtractor demoDb 1 true = (demoDb, none) :=
  ⟨(extract_document_frame demoExtractor demoDb 1 true).1,
    (extract_document_frame demoExtractor demoDb 1 true).2 demoDocRec (Or.inr rfl)
      (by decide) (by decide) demoBoom rfl⟩
